import Mathlib

/-!
Verification of the MobileUIGenerator layout core against its specification.

The development shallowly embeds the JavaScript layout utilities of the
repository into Lean:

* a JSON-like value type JVal models the dynamic JavaScript values flowing
  through the normalizer and converter (src/utils/NormalizeBackendLayout.js,
  src/utils/layoutUtils.js, ComponentRendererLite.jsx);
* a structured document model (GVal, Node, Page, LayoutDoc) embeds the
  canonical LayoutDocument trees consumed by the path utilities
  (lookupByPath, setNodeByPath, deleteNodeByPath) and the geometry
  enricher (ensurePositionAndSizeRecursive) of src/utils/layoutUtils.js.

JavaScript-specific behaviour is modelled explicitly: truthiness, the
lazy or-operator, undefined vs null, optional chaining, property reads on
primitives, and statements that throw TypeError in strict mode (member
access on null/undefined, calling .map or .toLowerCase on values lacking
them, assigning properties to primitives).  Fallible computations live in
the Except String monad.  Modelled fragment notes:

* Number(string) is modelled for empty and decimal-digit strings
  (the only shapes the claims exercise); all other strings map to NaN.
* assigning a property to an array value (a legal JavaScript expando)
  is modelled as an error: array-rooted documents are outside the data
  model and no theorem below asserts anything about that case.
* objects are association lists; JavaScript objects cannot carry
  duplicate keys, and all objects built by the embedded code are
  duplicate-free.
-/

/-- Introduction helper for the lexicographic Nat-triple orderings used as
termination measures below. -/
theorem lexNat3 {a1 b1 c1 a2 b2 c2 : Nat}
    (h : a1 < a2 ∨ (a1 = a2 ∧ (b1 < b2 ∨ (b1 = b2 ∧ c1 < c2)))) :
    Prod.Lex (· < ·) (Prod.Lex (· < ·) (· < ·)) ((a1, b1, c1) : Nat × Nat × Nat) (a2, b2, c2) := by
  rcases h with h | ⟨rfl, h⟩
  · exact Prod.Lex.left _ _ h
  · rcases h with h | ⟨rfl, h⟩
    · exact Prod.Lex.right _ (Prod.Lex.left _ _ h)
    · exact Prod.Lex.right _ (Prod.Lex.right _ h)

/-- JSON-like JavaScript values: null, undefined, booleans, numbers
(modelled as integers; the embedded code only produces integral numbers),
strings, arrays and objects (association lists in key-insertion order). -/
inductive JVal : Type where
  | jnull : JVal
  | jundef : JVal
  | jbool (b : Bool) : JVal
  | jnum (n : Int) : JVal
  | jstr (s : String) : JVal
  | jarr (elems : List JVal) : JVal
  | jobj (fields : List (String × JVal)) : JVal

open JVal

mutual
/-- Structural equality test on JVal (used to build decidable equality). -/
def jeq : JVal → JVal → Bool
  | jnull, jnull => true
  | jundef, jundef => true
  | jbool a, jbool b => a == b
  | jnum a, jnum b => a == b
  | jstr a, jstr b => a == b
  | jarr a, jarr b => jeqL a b
  | jobj a, jobj b => jeqF a b
  | _, _ => false

/-- Elementwise equality of JVal lists. -/
def jeqL : List JVal → List JVal → Bool
  | [], [] => true
  | a :: as1, b :: bs1 => jeq a b && jeqL as1 bs1
  | _, _ => false

/-- Pairwise equality of object field lists. -/
def jeqF : List (String × JVal) → List (String × JVal) → Bool
  | [], [] => true
  | a :: as1, b :: bs1 => a.1 == b.1 && jeq a.2 b.2 && jeqF as1 bs1
  | _, _ => false
end

mutual
theorem jeq_iff : (a b : JVal) → (jeq a b = true ↔ a = b)
  | jnull, b => by cases b <;> simp [jeq]
  | jundef, b => by cases b <;> simp [jeq]
  | jbool x, b => by cases b <;> simp [jeq]
  | jnum x, b => by cases b <;> simp [jeq]
  | jstr x, b => by cases b <;> simp [jeq]
  | jarr l, b => by
      cases b <;> simp [jeq]
      case jarr l2 => exact jeqL_iff l l2
  | jobj l, b => by
      cases b <;> simp [jeq]
      case jobj l2 => exact jeqF_iff l l2

theorem jeqL_iff : (l1 l2 : List JVal) → (jeqL l1 l2 = true ↔ l1 = l2)
  | [], [] => by simp [jeqL]
  | [], _ :: _ => by simp [jeqL]
  | _ :: _, [] => by simp [jeqL]
  | a :: as1, b :: bs1 => by
      simp [jeqL, jeq_iff a b, jeqL_iff as1 bs1]

theorem jeqF_iff : (l1 l2 : List (String × JVal)) → (jeqF l1 l2 = true ↔ l1 = l2)
  | [], [] => by simp [jeqF]
  | [], _ :: _ => by simp [jeqF]
  | _ :: _, [] => by simp [jeqF]
  | a :: as1, b :: bs1 => by
      constructor
      · intro h
        simp only [jeqF, Bool.and_eq_true, beq_iff_eq] at h
        obtain ⟨⟨h1, h2⟩, h3⟩ := h
        have e2 := (jeq_iff a.2 b.2).mp h2
        have e3 := (jeqF_iff as1 bs1).mp h3
        have : a = b := Prod.ext_iff.mpr ⟨h1, e2⟩
        rw [this, e3]
      · intro h
        cases h
        simp [jeqF, (jeq_iff a.2 a.2).mpr rfl, (jeqF_iff as1 as1).mpr rfl]
end

instance : DecidableEq JVal := fun a b => decidable_of_iff (jeq a b = true) (jeq_iff a b)

mutual
/-- Nesting depth of a JVal (primitives 0, containers one more than the
deepest element / field value).  Used as a termination measure for the
converter, whose recursion rebuilds nodes rather than descending
structurally. -/
def jdepth : JVal → Nat
  | jarr l => 1 + jdepthL l
  | jobj l => 1 + jdepthF l
  | _ => 0

/-- Depth of the deepest element of a list of values. -/
def jdepthL : List JVal → Nat
  | [] => 0
  | x :: xs => max (jdepth x) (jdepthL xs)

/-- Depth of the deepest field value of an object field list. -/
def jdepthF : List (String × JVal) → Nat
  | [] => 0
  | x :: xs => max (jdepth x.2) (jdepthF xs)
end

/-- JavaScript truthiness. -/
def truthy : JVal → Bool
  | jnull => false
  | jundef => false
  | jbool b => b
  | jnum n => n != 0
  | jstr s => s != ""
  | _ => true

/-- Values for which the JavaScript typeof operator yields the string
"object": objects, arrays and null. -/
def typeofObject : JVal → Bool
  | jobj _ => true
  | jarr _ => true
  | jnull => true
  | _ => false

/-- The lazy JavaScript or-operator: the first operand when truthy,
otherwise the second. -/
def jsOr (a b : JVal) : JVal := if truthy a then a else b

def isArr : JVal → Bool
  | jarr _ => true
  | _ => false

mutual
/-- JavaScript String() conversion (the fragment the code exercises):
objects print as [object Object]; arrays join their stringified elements
with commas, printing null/undefined elements as the empty string. -/
def jsStringOf : JVal → String
  | jnull => "null"
  | jundef => "undefined"
  | jbool b => if b then "true" else "false"
  | jnum n => toString n
  | jstr s => s
  | jarr l => jsStringList l
  | jobj _ => "[object Object]"

/-- Comma-joined stringification of array elements. -/
def jsStringList : List JVal → String
  | [] => ""
  | [x] => jsStringElem x
  | x :: xs => jsStringElem x ++ "," ++ jsStringList xs

/-- Element stringification inside Array.prototype.toString: null and
undefined become the empty string. -/
def jsStringElem : JVal → String
  | jnull => ""
  | jundef => ""
  | v => jsStringOf v
end

/-- Field lookup in an object field list (first occurrence wins, matching
JavaScript property lookup on the duplicate-free objects the code builds). -/
def lookupField : List (String × JVal) → String → Option JVal
  | [], _ => none
  | (k, v) :: rest, key => if k = key then some v else lookupField rest key

/-- Property read returning undefined for a missing key, as in JavaScript. -/
def propGet (l : List (String × JVal)) (k : String) : JVal :=
  match lookupField l k with
  | some v => v
  | none => jundef

/-- Property read on an arbitrary value: objects consult their fields,
every other non-null value yields undefined.  This models both plain
reads on non-null values and the optional-chaining operator; reads on
null/undefined (which throw) are guarded separately via jsGetOrThrow. -/
def optGet : JVal → String → JVal
  | jobj l, k => propGet l k
  | _, _ => jundef

/-- Property read that throws a TypeError on null/undefined, as strict-mode
member access does. -/
def jsGetOrThrow : JVal → String → Except String JVal
  | jnull, k => .error ("TypeError: cannot read properties of null (reading " ++ k ++ ")")
  | jundef, k => .error ("TypeError: cannot read properties of undefined (reading " ++ k ++ ")")
  | v, k => .ok (optGet v k)

/-- Property assignment: replaces the value of an existing key in place
(JavaScript keeps the original insertion position) or appends a new key. -/
def setPair : List (String × JVal) → String → JVal → List (String × JVal)
  | [], k, v => [(k, v)]
  | (k0, v0) :: rest, k, v =>
      if k0 = k then (k0, v) :: rest else (k0, v0) :: setPair rest k v

/-- The delete operator on an object field list. -/
def removeField : List (String × JVal) → String → List (String × JVal)
  | [], _ => []
  | (k0, v0) :: rest, k =>
      if k0 = k then removeField rest k else (k0, v0) :: removeField rest k

/-- Index-keyed entries contributed by spreading an array. -/
def indexedPairs (i : Nat) : List JVal → List (String × JVal)
  | [] => []
  | v :: rest => (toString i, v) :: indexedPairs (i + 1) rest

/-- Index-keyed single-character entries contributed by spreading a string. -/
def indexedCharPairs (i : Nat) : List Char → List (String × JVal)
  | [] => []
  | ch :: rest => (toString i, jstr (String.mk [ch])) :: indexedCharPairs (i + 1) rest

/-- Object spread: objects contribute their fields, arrays and strings
contribute index-keyed entries, primitives contribute nothing. -/
def spreadPairs : JVal → List (String × JVal)
  | jobj l => l
  | jarr l => indexedPairs 0 l
  | jstr s => indexedCharPairs 0 s.data
  | _ => []

/-- Strict-mode property assignment on a JVal: objects are updated, every
other value throws.  (JavaScript silently attaches expando properties to
arrays; array-rooted documents are outside the modelled data model, so
this case is folded into the error branch and no theorem relies on it.) -/
def jsSetField : JVal → String → JVal → Except String JVal
  | jobj l, k, v => .ok (jobj (setPair l k v))
  | _, k, _ => .error ("TypeError: cannot create property " ++ k)

/-- ASCII lowercasing of one character (the fragment of
String.prototype.toLowerCase the embedded code relies on; every tag and
key the code compares is ASCII). -/
def lowerChar (c : Char) : Char :=
  if 'A' ≤ c && c ≤ 'Z' then Char.ofNat (c.toNat + 32) else c

/-- ASCII fragment of String.prototype.toLowerCase. -/
def lowerStr (s : String) : String := String.mk (s.data.map lowerChar)

def startsWithChars : List Char → List Char → Bool
  | [], _ => true
  | _ :: _, [] => false
  | a :: as1, b :: bs1 => a == b && startsWithChars as1 bs1

def containsChars : List Char → List Char → Bool
  | pat, [] => startsWithChars pat []
  | pat, c :: rest => startsWithChars pat (c :: rest) || containsChars pat rest

/-- The case-insensitive regular-expression test for the pattern password
used by the form-field hoister: a substring match on the lowercased text. -/
def strContainsPassword (s : String) : Bool :=
  containsChars "password".data (lowerStr s).data

/-! ## Structured document model for src/utils/layoutUtils.js

The path utilities and the geometry enricher operate on canonical
LayoutDocument trees: pages contain sections, sections contain components,
and a component stores nested children in props.items or props.children.
GVal models the JavaScript value stored in one geometry prop slot
(a number, NaN, a string, or absent). -/

/-- A geometry prop slot: a JavaScript number, NaN (also typeof number),
a string, or an absent property. -/
inductive GVal : Type where
  | num (n : Int) : GVal
  | nan : GVal
  | str (s : String) : GVal
  | missing : GVal
deriving DecidableEq

/-- The JavaScript test typeof v === "number" on a geometry slot. -/
def GVal.isNumber : GVal → Bool
  | .num _ => true
  | .nan => true
  | _ => false

/-- JavaScript truthiness of a geometry slot. -/
def GVal.gtruthy : GVal → Bool
  | .num n => n != 0
  | .nan => false
  | .str s => s != ""
  | .missing => false

/-- Decimal-digit string value, if the string is a nonempty digit sequence. -/
def digitsVal : List Char → Option Nat
  | [] => none
  | [c] => if c.isDigit then some (c.toNat - '0'.toNat) else none
  | c :: rest =>
      match digitsVal rest, if c.isDigit then some (c.toNat - '0'.toNat) else none with
      | some v, some d => some (d * 10 ^ rest.length + v)
      | _, _ => none

/-- JavaScript Number() conversion on a geometry slot, modelled for the
fragment the code exercises: numbers pass through, the empty string is 0,
decimal-digit strings parse, every other string is NaN (signs, blanks and
decimals are outside the fragment), absent values are NaN. -/
def jsToNumberG : GVal → GVal
  | .num n => .num n
  | .nan => .nan
  | .str s =>
      if s = "" then .num 0
      else match digitsVal s.data with
        | some v => .num (v : Int)
        | none => .nan
  | .missing => .nan

/-- A node of the canonical layout tree: an id tag (to tell nodes apart),
the four geometry props, and the three optional child collections the
path utilities consult (a top-level components list, props.items,
props.children).  The collections are either absent or arrays, which is
the canonical LayoutDocument shape the utilities are applied to. -/
inductive Node : Type where
  | mk (nid : Nat) (x y width height : GVal)
       (components items children : Option (List Node)) : Node

/-- A page: its sections list.  Sections are nodes (their components list
is the section body), matching how lookupByPath treats them uniformly. -/
structure Page : Type where
  sections : List Node

/-- A layout document: its pages. -/
structure LayoutDoc : Type where
  pages : List Page

/-- List indexing as JavaScript array subscription (undefined out of range). -/
def nget {α : Type} : List α → Nat → Option α
  | [], _ => none
  | a :: _, 0 => some a
  | _ :: rest, n + 1 => nget rest n

/-- In-place element replacement, as assignment to an array slot. -/
def nset {α : Type} : List α → Nat → α → List α
  | [], _, _ => []
  | _ :: rest, 0, b => b :: rest
  | a :: rest, n + 1, b => a :: nset rest n b

/-- Array.prototype.splice(i, 1): removes the element at index i when it
exists and leaves the array unchanged otherwise. -/
def nerase {α : Type} : List α → Nat → List α
  | [], _ => []
  | _ :: rest, 0 => rest
  | a :: rest, n + 1 => a :: nerase rest n

/-- The collection expression of lookupByPath:
parent.components, else parent.props.items, else parent.props.children
(the JavaScript or-chain; a present collection is an array and arrays are
always truthy, so presence decides). -/
def getComps : Node → Option (List Node)
  | .mk _ _ _ _ _ (some l) _ _ => some l
  | .mk _ _ _ _ _ none (some l) _ => some l
  | .mk _ _ _ _ _ none none (some l) => some l
  | _ => none

/-- Writes a new list back into the collection slot getComps selected
(the pure counterpart of mutating the aliased listRef array in place). -/
def setComps : Node → List Node → Node
  | .mk i x y w h (some _) it ch, l => .mk i x y w h (some l) it ch
  | .mk i x y w h none (some _) ch, l => .mk i x y w h none (some l) ch
  | .mk i x y w h none none (some _), l => .mk i x y w h none none (some l)
  | n, _ => n

/-- The record lookupByPath returns: parent, owning collection, final
index and addressed node; absent fields model the early { node: null }
returns. -/
structure LookupResult : Type where
  parent : Option Node
  listRef : Option (List Node)
  index : Option Nat
  node : Option Node

def notFound : LookupResult := ⟨none, none, none, none⟩

/-- The component-level loop of lookupByPath over the path indices from
position 2 on: at each step select the first present collection, fail
closed when it is absent or the index misses, and at the last index
report parent, collection, index and node. -/
def lookAux (cur : Node) : List Nat → LookupResult
  | [] => notFound
  | [i] =>
      match getComps cur with
      | none => notFound
      | some L =>
          match nget L i with
          | none => notFound
          | some nd => ⟨some cur, some L, some i, some nd⟩
  | i :: rest =>
      match getComps cur with
      | none => notFound
      | some L =>
          match nget L i with
          | none => notFound
          | some nd => lookAux nd rest

/-- lookupByPath of src/utils/layoutUtils.js: paths shorter than 3 fail,
path[0] selects the page, path[1] the section, and the remaining indices
walk component collections. -/
def lookupByPath (doc : LayoutDoc) (path : List Nat) : LookupResult :=
  if path.length < 3 then notFound
  else
    match path with
    | p0 :: p1 :: rest =>
        match nget doc.pages p0 with
        | none => notFound
        | some pg =>
            match nget pg.sections p1 with
            | none => notFound
            | some sec => lookAux sec rest
    | _ => notFound

/-- The component-level part of setNodeByPath: walk as lookupByPath does
and replace the addressed slot in its owning collection, rebuilding the
spine (the pure counterpart of listRef[index] = newNode on the copy);
returns none exactly when the lookup fails. -/
def setAux (cur : Node) (idxs : List Nat) (newNode : Node) : Option Node :=
  match idxs with
  | [] => none
  | [i] =>
      match getComps cur with
      | none => none
      | some L =>
          match nget L i with
          | none => none
          | some _ => some (setComps cur (nset L i newNode))
  | i :: rest =>
      match getComps cur with
      | none => none
      | some L =>
          match nget L i with
          | none => none
          | some nd =>
              match setAux nd rest newNode with
              | none => none
              | some nd2 => some (setComps cur (nset L i nd2))

/-- setNodeByPath of src/utils/layoutUtils.js: deep-copies the document
(the identity for pure values), replaces the addressed slot when the
lookup succeeds, and returns the unmodified copy otherwise. -/
def setNodeByPath (doc : LayoutDoc) (path : List Nat) (newNode : Node) : LayoutDoc :=
  if path.length < 3 then doc
  else
    match path with
    | p0 :: p1 :: rest =>
        match nget doc.pages p0 with
        | none => doc
        | some pg =>
            match nget pg.sections p1 with
            | none => doc
            | some sec =>
                match setAux sec rest newNode with
                | none => doc
                | some sec2 =>
                    { doc with
                      pages := nset doc.pages p0 { pg with sections := nset pg.sections p1 sec2 } }
    | _ => doc

/-- The component-level part of deleteNodeByPath: walk the parent path
indices; at the final parent index require the parent node to exist and
splice the tail index out of the collection that CONTAINS the parent
(the collection lookupByPath reported as listRef for the parent path,
which is what the source splices). -/
def delAux (cur : Node) (idxs : List Nat) (tail : Nat) : Option Node :=
  match idxs with
  | [] => none
  | [j] =>
      match getComps cur with
      | none => none
      | some L =>
          match nget L j with
          | none => none
          | some _ => some (setComps cur (nerase L tail))
  | j :: rest =>
      match getComps cur with
      | none => none
      | some L =>
          match nget L j with
          | none => none
          | some nd =>
              match delAux nd rest tail with
              | none => none
              | some nd2 => some (setComps cur (nset L j nd2))

/-- deleteNodeByPath of src/utils/layoutUtils.js: paths shorter than 3
return the copy unchanged; otherwise it looks up the path WITHOUT its
last index and splices the last index out of the listRef collection of
that parent lookup.  For a path of length exactly 3 the parent path has
length 2, its lookup fails, and the copy is returned unchanged. -/
def deleteNodeByPath (doc : LayoutDoc) (path : List Nat) : LayoutDoc :=
  if path.length < 3 then doc
  else
    match path with
    | p0 :: p1 :: rest =>
        match rest with
        | [] => doc
        | [_] => doc
        | j :: k :: more =>
            let tail := (j :: k :: more).getLastD 0
            let parentRest := (j :: k :: more).dropLast
            match nget doc.pages p0 with
            | none => doc
            | some pg =>
                match nget pg.sections p1 with
                | none => doc
                | some sec =>
                    match delAux sec parentRest tail with
                    | none => doc
                    | some sec2 =>
                        { doc with
                          pages :=
                            nset doc.pages p0 { pg with sections := nset pg.sections p1 sec2 } }
    | _ => doc

/-! ## ensurePositionAndSizeRecursive of src/utils/layoutUtils.js

The source draws Math.round(Math.random() * 40 + 24) for each missing
coordinate; the embedding passes the successive rounded draws as an
oracle g : Nat -> Int together with a counter selecting the next draw.
Every draw of the source lies in the band 24..64, which theorems below
take as a hypothesis on g. -/

mutual
/-- The per-component ensure closure: installs jittered x/y when they are
not numbers, installs width/height (Number-coercing present truthy
non-numbers, defaulting falsy ones to 300/140), then recurses into
props.items, else props.children. -/
def ensureComp (g : Nat → Int) (k : Nat) : Node → Node × Nat
  | .mk i x y w h comps items childs =>
      let px := if x.isNumber then (x, k) else (GVal.num (g k), k + 1)
      let py := if y.isNumber then (y, px.2) else (GVal.num (g px.2), px.2 + 1)
      let w2 := if w.isNumber then w else if w.gtruthy then jsToNumberG w else GVal.num 300
      let h2 := if h.isNumber then h else if h.gtruthy then jsToNumberG h else GVal.num 140
      match items, childs with
      | some l, ch =>
          let r := ensureList g py.2 l
          (.mk i px.1 py.1 w2 h2 comps (some r.1) ch, r.2)
      | none, some l =>
          let r := ensureList g py.2 l
          (.mk i px.1 py.1 w2 h2 comps none (some r.1), r.2)
      | none, none => (.mk i px.1 py.1 w2 h2 comps none none, py.2)

/-- Sequential ensure over a component list (forEach order). -/
def ensureList (g : Nat → Int) (k : Nat) : List Node → List Node × Nat
  | [] => ([], k)
  | n :: rest =>
      let r1 := ensureComp g k n
      let r2 := ensureList g r1.2 rest
      (r1.1 :: r2.1, r2.2)
end

/-- Membership of a geometry slot in the jitter band 24..64. -/
def gvalInBand : GVal → Bool
  | .num n => decide (24 ≤ n) && decide (n ≤ 64)
  | _ => false

mutual
/-- Geometry post-condition relating an input component to its enriched
output: numeric x/y are kept, non-numeric x/y become band jitter; numeric
width/height are kept, truthy non-numeric ones are Number-coerced, falsy
ones default to 300/140; the recursed nested list (props.items when
present, else props.children) corresponds elementwise. -/
def ensureOKComp : Node → Node → Bool
  | .mk i x y w h _ items childs, .mk i2 x2 y2 w2 h2 _ items2 childs2 =>
      (i2 == i) &&
      (if x.isNumber then x2 == x else gvalInBand x2) &&
      (if y.isNumber then y2 == y else gvalInBand y2) &&
      (if w.isNumber then w2 == w
       else if w.gtruthy then w2 == jsToNumberG w else w2 == GVal.num 300) &&
      (if h.isNumber then h2 == h
       else if h.gtruthy then h2 == jsToNumberG h else h2 == GVal.num 140) &&
      (match items, items2 with
       | some l, some l2 => ensureOKList l l2
       | none, none =>
           (match childs, childs2 with
            | some l, some l2 => ensureOKList l l2
            | none, none => true
            | _, _ => false)
       | _, _ => false)

def ensureOKList : List Node → List Node → Bool
  | [], [] => true
  | a :: as1, b :: bs1 => ensureOKComp a b && ensureOKList as1 bs1
  | _, _ => false
end

theorem nget_nset_self {α : Type} :
    ∀ (l : List α) (i : Nat) (a b : α), nget l i = some b → nget (nset l i a) i = some a := by
  intro l
  induction l with
  | nil => intro i a b h; simp [nget] at h
  | cons x xs ih =>
      intro i a b h
      cases i with
      | zero => rfl
      | succ n =>
          simp only [nget] at h
          simp only [nset, nget]
          exact ih n a b h

theorem getComps_setComps {n : Node} {L : List Node} (L2 : List Node)
    (h : getComps n = some L) : getComps (setComps n L2) = some L2 := by
  cases n with
  | mk i x y w h2 comps items childs =>
      cases comps with
      | some l => rfl
      | none =>
          cases items with
          | some l => rfl
          | none =>
              cases childs with
              | some l => rfl
              | none => simp [getComps] at h

theorem lookSet_none (N : Node) :
    ∀ (idxs : List Nat) (cur : Node),
      (lookAux cur idxs).node = none → setAux cur idxs N = none := by
  intro idxs
  induction idxs with
  | nil => intro cur _; rfl
  | cons i rest ih =>
      intro cur h
      cases rest with
      | nil =>
          simp only [lookAux] at h
          cases hc : getComps cur with
          | none => simp [setAux, hc]
          | some L =>
              simp only [hc] at h
              cases hg : nget L i with
              | none => simp [setAux, hc, hg]
              | some nd => simp [hg, notFound] at h
      | cons j rest2 =>
          simp only [lookAux] at h
          cases hc : getComps cur with
          | none => simp [setAux, hc]
          | some L =>
              simp only [hc] at h
              cases hg : nget L i with
              | none => simp [setAux, hc, hg]
              | some nd =>
                  simp only [hg] at h
                  simp [setAux, hc, hg, ih nd h]

theorem lookSet_some (N : Node) :
    ∀ (idxs : List Nat) (cur nd : Node),
      (lookAux cur idxs).node = some nd →
      ∃ cur2, setAux cur idxs N = some cur2 ∧ (lookAux cur2 idxs).node = some N := by
  intro idxs
  induction idxs with
  | nil => intro cur nd h; simp [lookAux, notFound] at h
  | cons i rest ih =>
      intro cur nd h
      cases rest with
      | nil =>
          simp only [lookAux] at h
          cases hc : getComps cur with
          | none => simp [hc, notFound] at h
          | some L =>
              simp only [hc] at h
              cases hg : nget L i with
              | none => simp [hg, notFound] at h
              | some nd0 =>
                  refine ⟨setComps cur (nset L i N), ?_, ?_⟩
                  · simp only [setAux, hc, hg]
                  · simp only [lookAux, getComps_setComps _ hc,
                      nget_nset_self L i N nd0 hg]
      | cons j rest2 =>
          simp only [lookAux] at h
          cases hc : getComps cur with
          | none => simp [hc, notFound] at h
          | some L =>
              simp only [hc] at h
              cases hg : nget L i with
              | none => simp [hg, notFound] at h
              | some child =>
                  simp only [hg] at h
                  obtain ⟨child2, hset, hlook⟩ := ih child nd h
                  refine ⟨setComps cur (nset L i child2), ?_, ?_⟩
                  · simp only [setAux, hc, hg, hset]
                  · simp only [lookAux, getComps_setComps _ hc,
                      nget_nset_self L i child2 child hg, hlook]

/-- C2: for every document D, path P and node N, if P resolves in D then
resolving P in set(D, P, N) yields exactly N; if P does not resolve
(including every path shorter than 3) then set(D, P, N) returns a
document equal to D with no slot replaced.  In this pure embedding the
deep copy of the source is the identity, so the input document D is
itself trivially unchanged by the call, which is the remaining part of
the claim. -/
theorem setNodeByPath_roundtrip (D : LayoutDoc) (P : List Nat) (N : Node) :
    if ((lookupByPath D P).node).isSome
    then ((lookupByPath (setNodeByPath D P N) P).node) = some N
    else setNodeByPath D P N = D := by
  match P with
  | [] => simp [lookupByPath, setNodeByPath, notFound]
  | [p0] => simp [lookupByPath, setNodeByPath, notFound]
  | [p0, p1] => simp [lookupByPath, setNodeByPath, notFound]
  | p0 :: p1 :: r0 :: rest =>
    have hlen : ¬ ((p0 :: p1 :: r0 :: rest).length < 3) := by
      simp only [List.length_cons]
      omega
    simp only [lookupByPath, setNodeByPath, if_neg hlen]
    cases hpg : nget D.pages p0 with
    | none => simp [notFound]
    | some pg =>
        simp only [hpg]
        cases hsec : nget pg.sections p1 with
        | none => simp [notFound]
        | some sec =>
            simp only [hsec]
            cases hnode : (lookAux sec (r0 :: rest)).node with
            | none =>
                rw [lookSet_none N (r0 :: rest) sec hnode]
                simp [hnode]
            | some nd =>
                obtain ⟨sec2, hset, hlook⟩ := lookSet_some N (r0 :: rest) sec nd hnode
                rw [hset]
                simp only [hnode, Option.isSome_some, if_true]
                simp only [nget_nset_self D.pages p0 _ pg hpg,
                  nget_nset_self pg.sections p1 sec2 sec hsec]
                exact hlook

/-- A leaf component carrying only an id tag. -/
def leafN (nid : Nat) : Node := .mk nid .missing .missing .missing .missing none none none

/-- A document with one page whose single section holds two components:
the smallest document in which a depth-3 delete is resolvable. -/
def delDoc : LayoutDoc :=
  ⟨[⟨[ .mk 100 .missing .missing .missing .missing (some [leafN 0, leafN 1]) none none ]⟩]⟩

/-- A document whose section holds components 10 and 11, component 11
carrying the nested children 20 and 21 in props.items. -/
def delDoc2 : LayoutDoc :=
  ⟨[⟨[ .mk 100 .missing .missing .missing .missing
        (some [leafN 10,
               .mk 11 .missing .missing .missing .missing none (some [leafN 20, leafN 21]) none])
        none none ]⟩]⟩

/-- What deleteNodeByPath actually returns on delDoc2 for the path
[0, 0, 1, 0] (addressing child 20 of component 11): component 10 is
spliced out of the section while component 11 keeps both children. -/
def delDoc2Actual : LayoutDoc :=
  ⟨[⟨[ .mk 100 .missing .missing .missing .missing
        (some [.mk 11 .missing .missing .missing .missing none (some [leafN 20, leafN 21]) none])
        none none ]⟩]⟩

/-- C1: evidence that deleteNodeByPath contradicts its specification.
The path [0, 0, 0] resolves in delDoc, yet the delete returns the
document unchanged: the parent path of a length-3 path has length 2, its
lookup always fails, and the guard returns the untouched copy.  For the
resolvable length-4 path [0, 0, 1, 0] the delete splices the final index
out of the collection containing the PARENT (removing component 10 from
the section) instead of removing child 20 from component 11's children:
the addressed node survives and its sibling's neighbour is lost. -/
theorem deleteNodeByPath_code_bug :
    ((lookupByPath delDoc [0, 0, 0]).node).isSome = true ∧
    deleteNodeByPath delDoc [0, 0, 0] = delDoc ∧
    ((lookupByPath delDoc2 [0, 0, 1, 0]).node).isSome = true ∧
    deleteNodeByPath delDoc2 [0, 0, 1, 0] = delDoc2Actual :=
  ⟨rfl, rfl, rfl, rfl⟩

def defaultTheme : JVal :=
  jobj [("primary", jstr "#0D9488"), ("secondary", jstr "#CCFBF1"),
        ("background", jstr "#F9FAFB"), ("text", jstr "#0F172A")]

def defaultTokens : JVal := jobj [("gap", jnum 16), ("padding", jnum 20)]

/-- The per-screen mapper of the legacy migration: builds a page with one
synthetic "Main Section".  Member access on a null/undefined screen entry
throws. -/
def screenToPage (s : JVal) : Except String JVal :=
  match s with
  | jnull => .error "TypeError: cannot read properties of null (reading name)"
  | jundef => .error "TypeError: cannot read properties of undefined (reading name)"
  | _ =>
      .ok (jobj
        [("name", jsOr (optGet s "name") (jsOr (optGet s "title") (jstr "Screen"))),
         ("layout_type", jsOr (optGet s "layout_type") (jstr "sectioned")),
         ("sections", jarr
           [jobj [("name", jstr "Main Section"),
                  ("components", jsOr (optGet s "components") (jarr []))]])])

def screensToPages : List JVal → Except String (List JVal)
  | [] => .ok []
  | s :: rest => do
      let p ← screenToPage s
      let ps ← screensToPages rest
      .ok (p :: ps)

/-- The one-level layout unwrap: raw.layout when it is truthy and of
typeof object, else raw itself. -/
def unwrapLayout (raw : JVal) : JVal :=
  let l := optGet raw "layout"
  if truthy l && typeofObject l then l else raw

/-- The legacy screens migration statement: when pages is falsy and
screens truthy, map the screens into pages and assign; calling .map on a
truthy non-array throws. -/
def migrateScreens (r : JVal) : Except String JVal :=
  if !truthy (optGet r "pages") && truthy (optGet r "screens") then
    match optGet r "screens" with
    | jarr l => screensToPages l >>= fun ps => jsSetField r "pages" (jarr ps)
    | _ => .error "TypeError: raw.screens.map is not a function"
  else pure r

/-- The statement ensuring raw.pages is an array. -/
def ensurePagesArray (r : JVal) : Except String JVal :=
  if isArr (optGet r "pages") then pure r else jsSetField r "pages" (jarr [])

/-- The fallback theme expression raw.theme, else raw.tokens?.theme, else
raw.theme, else the fixed palette. -/
def themeExprOf (r : JVal) : JVal :=
  jsOr (optGet r "theme")
    (jsOr (optGet (optGet r "tokens") "theme") (jsOr (optGet r "theme") defaultTheme))

/-- The statement assigning raw.theme. -/
def setThemeStep (r : JVal) : Except String JVal := jsSetField r "theme" (themeExprOf r)

/-- The statement assigning raw.tokens. -/
def setTokensStep (r : JVal) : Except String JVal :=
  jsSetField r "tokens" (jsOr (optGet r "tokens") defaultTokens)

/-- ensureLayoutShape of src/utils/layoutUtils.js: null for falsy input,
else the statement sequence unwrap, screens migration, pages array,
theme fallback, tokens fallback, threaded through Except because the
migration and the assignments can throw in strict mode. -/
def ensureLayoutShape (raw0 : JVal) : Except String JVal :=
  if truthy raw0 = false then .ok jnull
  else
    migrateScreens (unwrapLayout raw0) >>= fun raw2 =>
    ensurePagesArray raw2 >>= fun raw3 =>
    setThemeStep raw3 >>= fun raw4 =>
    setTokensStep raw4

theorem lookup_setPair_self : ∀ (l : List (String × JVal)) (k : String) (v : JVal),
    lookupField (setPair l k v) k = some v := by
  intro l k v
  induction l with
  | nil => simp [setPair, lookupField]
  | cons p rest ih =>
      by_cases hk : p.1 = k
      · obtain ⟨k0, v0⟩ := p
        simp only at hk
        simp [setPair, hk, lookupField]
      · obtain ⟨k0, v0⟩ := p
        simp only at hk
        simp [setPair, hk, lookupField, ih]

theorem lookup_setPair_ne : ∀ (l : List (String × JVal)) (k k2 : String) (v : JVal),
    k2 ≠ k → lookupField (setPair l k v) k2 = lookupField l k2 := by
  intro l k k2 v hne
  induction l with
  | nil =>
      have h2 : k ≠ k2 := fun h => hne h.symm
      simp [setPair, lookupField, h2]
  | cons p rest ih =>
      obtain ⟨k0, v0⟩ := p
      by_cases hk : k0 = k
      · subst hk
        have h2 : k0 ≠ k2 := fun h => hne h.symm
        simp [setPair, lookupField, h2]
      · simp [setPair, hk, lookupField, ih]

theorem setPair_self_of_lookup : ∀ (l : List (String × JVal)) (k : String) (v : JVal),
    lookupField l k = some v → setPair l k v = l := by
  intro l k v
  induction l with
  | nil => intro h; simp [lookupField] at h
  | cons p rest ih =>
      intro h
      obtain ⟨k0, v0⟩ := p
      by_cases hk : k0 = k
      · subst hk
        simp [lookupField] at h
        simp [setPair, h]
      · simp only [lookupField, if_neg hk] at h
        simp [setPair, hk, ih h]

theorem truthy_jsOr_right {a b : JVal} (h : truthy b = true) : truthy (jsOr a b) = true := by
  by_cases ha : truthy a = true
  · simp [jsOr, ha]
  · simp [jsOr, ha, h]

theorem jsOr_of_truthy {a : JVal} (b : JVal) (h : truthy a = true) : jsOr a b = a := by
  simp [jsOr, h]

theorem jsOr_of_falsy {a : JVal} (b : JVal) (h : truthy a = false) : jsOr a b = b := by
  simp [jsOr, h]

theorem bind_ok_elim {α β : Type} {a : Except String α} {f : α → Except String β} {y : β}
    (h : (a >>= f) = .ok y) : ∃ v, a = .ok v ∧ f v = .ok y := by
  cases a with
  | ok v => exact ⟨v, rfl, h⟩
  | error e => simp [Bind.bind, Except.bind] at h

theorem jsSetField_ok_elim {v : JVal} {k : String} {w y : JVal}
    (h : jsSetField v k w = .ok y) : ∃ l, v = jobj l ∧ y = jobj (setPair l k w) := by
  cases v <;> simp [jsSetField] at h
  case jobj l => exact ⟨l, rfl, h.symm⟩

def isObj : JVal → Bool
  | jobj _ => true
  | _ => false

/-- Well-formedness of a normalizer result: a document object whose pages
field is an array and whose theme and tokens are truthy. -/
def wellFormedResult : Except String JVal → Bool
  | .ok (jobj l) =>
      isArr (propGet l "pages") && truthy (propGet l "theme") && truthy (propGet l "tokens")
  | _ => false

/-- The legacy screens migration either does not fire (pages truthy or
screens falsy) or maps an array all of whose entries are non-null. -/
def screensMigrationSafe (r : JVal) : Bool :=
  if !truthy (optGet r "pages") && truthy (optGet r "screens") then
    match optGet r "screens" with
    | jarr l => l.all (fun s => !(s == jnull) && !(s == jundef))
    | _ => false
  else true

theorem screensToPages_ok (l : List JVal)
    (h : l.all (fun s => !(s == jnull) && !(s == jundef)) = true) :
    ∃ ps, screensToPages l = .ok ps := by
  induction l with
  | nil => exact ⟨[], rfl⟩
  | cons s rest ih =>
      simp only [List.all_cons, Bool.and_eq_true] at h
      obtain ⟨ps, hps⟩ := ih h.2
      have hs : ∃ p, screenToPage s = .ok p := by
        cases s <;> simp [screenToPage] <;> simp at h
      obtain ⟨p, hp⟩ := hs
      exact ⟨p :: ps, by simp [screensToPages, hp, hps, Bind.bind, Except.bind]⟩

theorem screensToPages_bad (l : List JVal)
    (h : l.all (fun s => !(s == jnull) && !(s == jundef)) = false) :
    (screensToPages l).isOk = false := by
  induction l with
  | nil => simp at h
  | cons s rest ih =>
      by_cases hs : s = jnull ∨ s = jundef
      · rcases hs with hs | hs <;> subst hs <;>
          simp [screensToPages, screenToPage, Bind.bind, Except.bind, Except.isOk, Except.toBool]
      · push_neg at hs
        have hA : (s == jnull) = false := by simp [hs.1]
        have hB : (s == jundef) = false := by simp [hs.2]
        have hrest : rest.all (fun s => !(s == jnull) && !(s == jundef)) = false := by
          simp only [List.all_cons, hA, hB, Bool.not_false, Bool.true_and] at h
          exact h
        have hok : ∃ p, screenToPage s = .ok p := by
          cases s <;> simp [screenToPage] <;> simp_all
        obtain ⟨p, hp⟩ := hok
        have := ih hrest
        cases hrp : screensToPages rest with
        | ok ps => rw [hrp] at this; simp [Except.isOk, Except.toBool] at this
        | error e =>
            simp [screensToPages, hp, hrp, Bind.bind, Except.bind, Except.isOk, Except.toBool]

/-- Truthiness of the fallback theme expression. -/
theorem truthy_themeExpr (r : JVal) : truthy (themeExprOf r) = true :=
  truthy_jsOr_right (truthy_jsOr_right (truthy_jsOr_right rfl))


theorem ok_bind {α β : Type} (v : α) (f : α → Except String β) :
    (Except.ok v >>= f) = f v := rfl

theorem error_bind {α β : Type} (e : String) (f : α → Except String β) :
    ((Except.error e : Except String α) >>= f) = .error e := rfl

theorem pages_arr_of_isArr {l : List (String × JVal)}
    (hpa : isArr (optGet (jobj l) "pages") = true) :
    ∃ ps, lookupField l "pages" = some (jarr ps) := by
  cases hlk : lookupField l "pages" with
  | none => rw [optGet, propGet, hlk] at hpa; simp [isArr] at hpa
  | some v =>
      cases v <;> rw [optGet, propGet, hlk] at hpa <;> simp [isArr] at hpa
      case jarr ps => exact ⟨ps, rfl⟩

/-- The theme and tokens statements turn any object with an array pages
field into a well-formed document. -/
theorem themeTokens_wellFormed (l : List (String × JVal)) (ps : List JVal)
    (hps : lookupField l "pages" = some (jarr ps)) :
    wellFormedResult (setThemeStep (jobj l) >>= fun raw4 => setTokensStep raw4) = true := by
  rw [show setThemeStep (jobj l) =
      .ok (jobj (setPair l "theme" (themeExprOf (jobj l)))) from rfl]
  rw [ok_bind]
  set T := themeExprOf (jobj l) with hT
  rw [show setTokensStep (jobj (setPair l "theme" T)) =
      .ok (jobj (setPair (setPair l "theme" T) "tokens"
        (jsOr (optGet (jobj (setPair l "theme" T)) "tokens") defaultTokens))) from rfl]
  set K := jsOr (optGet (jobj (setPair l "theme" T)) "tokens") defaultTokens with hK
  simp only [wellFormedResult, Bool.and_eq_true]
  refine ⟨⟨?_, ?_⟩, ?_⟩
  · have : lookupField (setPair (setPair l "theme" T) "tokens" K) "pages"
        = some (jarr ps) := by
      rw [lookup_setPair_ne _ _ _ _ (by decide), lookup_setPair_ne _ _ _ _ (by decide)]
      exact hps
    simp [propGet, this, isArr]
  · have : lookupField (setPair (setPair l "theme" T) "tokens" K) "theme" = some T := by
      rw [lookup_setPair_ne _ _ _ _ (by decide)]
      exact lookup_setPair_self l "theme" T
    rw [propGet, this, hT]
    exact truthy_themeExpr _
  · have : lookupField (setPair (setPair l "theme" T) "tokens" K) "tokens" = some K :=
      lookup_setPair_self _ "tokens" K
    rw [propGet, this, hK]
    exact truthy_jsOr_right rfl

/-- The pages, theme and tokens statement suffix yields a well-formed
document on every object. -/
theorem tail_wellFormed (l : List (String × JVal)) :
    wellFormedResult (ensurePagesArray (jobj l) >>= fun raw3 =>
      setThemeStep raw3 >>= fun raw4 => setTokensStep raw4) = true := by
  by_cases hpa : isArr (optGet (jobj l) "pages") = true
  · obtain ⟨ps, hps⟩ := pages_arr_of_isArr hpa
    rw [ensurePagesArray, if_pos hpa]
    rw [show (pure (jobj l) : Except String JVal) = .ok (jobj l) from rfl, ok_bind]
    exact themeTokens_wellFormed l ps hps
  · rw [ensurePagesArray, if_neg hpa]
    rw [show jsSetField (jobj l) "pages" (jarr []) =
        .ok (jobj (setPair l "pages" (jarr []))) from rfl, ok_bind]
    exact themeTokens_wellFormed _ [] (lookup_setPair_self l "pages" (jarr []))

/-- C4 (amended): ensureLayoutShape returns JavaScript null exactly for
FALSY input (null, undefined, 0, the empty string, false, NaN), not only
for absent input as the claim states.  For truthy input unwrapping to an
object, the result is a well-formed document (pages array, truthy theme
and tokens) when the legacy screens migration does not fire or maps an
array of non-null screens; when the migration fires on a truthy
non-array screens value or on an array containing null entries, the
function throws a TypeError instead of repairing (the claim asserted
non-array screens are repaired).  Truthy inputs unwrapping to
non-objects (primitives - which throw on property assignment - and the
array expando corner outside the modelled fragment) are not asserted. -/
theorem ensureLayoutShape_totality (raw : JVal) :
    if truthy raw = false then ensureLayoutShape raw = .ok jnull
    else if isObj (unwrapLayout raw) = true then
      (if screensMigrationSafe (unwrapLayout raw) = true
       then wellFormedResult (ensureLayoutShape raw) = true
       else (ensureLayoutShape raw).isOk = false)
    else True := by
  by_cases ht : truthy raw = false
  · simp [ht, ensureLayoutShape]
  · rw [if_neg ht]
    cases hu : unwrapLayout raw with
    | jobj l1 =>
        simp only [hu, isObj, if_true]
        have hE : ensureLayoutShape raw =
            migrateScreens (jobj l1) >>= fun raw2 =>
            ensurePagesArray raw2 >>= fun raw3 =>
            setThemeStep raw3 >>= fun raw4 => setTokensStep raw4 := by
          rw [ensureLayoutShape, if_neg ht, hu]
        by_cases hmig :
            (!truthy (optGet (jobj l1) "pages") && truthy (optGet (jobj l1) "screens")) = true
        · cases hscr : optGet (jobj l1) "screens" with
          | jarr ls =>
              by_cases hsafe : ls.all (fun s => !(s == jnull) && !(s == jundef)) = true
              · have hms : screensMigrationSafe (jobj l1) = true := by
                  unfold screensMigrationSafe
                  rw [if_pos hmig, hscr]
                  exact hsafe
                rw [if_pos hms]
                obtain ⟨ps, hps⟩ := screensToPages_ok ls hsafe
                have hmv : migrateScreens (jobj l1) =
                    .ok (jobj (setPair l1 "pages" (jarr ps))) := by
                  rw [migrateScreens, if_pos hmig, hscr]
                  simp only [hps, ok_bind]
                  rfl
                rw [hE, hmv, ok_bind]
                exact tail_wellFormed _
              · have hms : screensMigrationSafe (jobj l1) = false := by
                  unfold screensMigrationSafe
                  rw [if_pos hmig, hscr]
                  simpa using hsafe
                rw [if_neg (by simp [hms])]
                have hbad := screensToPages_bad ls (by simpa using hsafe)
                cases hsp : screensToPages ls with
                | ok ps => rw [hsp] at hbad; simp [Except.isOk, Except.toBool] at hbad
                | error e =>
                    have hmv : migrateScreens (jobj l1) = .error e := by
                      rw [migrateScreens, if_pos hmig, hscr]
                      simp only [hsp, error_bind]
                    rw [hE, hmv, error_bind]
                    rfl
          | jnull => rw [hscr] at hmig; simp [truthy] at hmig
          | jundef => rw [hscr] at hmig; simp [truthy] at hmig
          | jbool b =>
              cases b with
              | false => rw [hscr] at hmig; simp [truthy] at hmig
              | true =>
                  have hms : screensMigrationSafe (jobj l1) = false := by
                    unfold screensMigrationSafe
                    rw [if_pos hmig, hscr]
                  rw [if_neg (by simp [hms])]
                  have hmv : migrateScreens (jobj l1) =
                      .error "TypeError: raw.screens.map is not a function" := by
                    rw [migrateScreens, if_pos hmig, hscr]
                  rw [hE, hmv, error_bind]
                  rfl
          | jnum n =>
              have hms : screensMigrationSafe (jobj l1) = false := by
                unfold screensMigrationSafe
                rw [if_pos hmig, hscr]
              rw [if_neg (by simp [hms])]
              have hmv : migrateScreens (jobj l1) =
                  .error "TypeError: raw.screens.map is not a function" := by
                rw [migrateScreens, if_pos hmig, hscr]
              rw [hE, hmv, error_bind]
              rfl
          | jstr st =>
              have hms : screensMigrationSafe (jobj l1) = false := by
                unfold screensMigrationSafe
                rw [if_pos hmig, hscr]
              rw [if_neg (by simp [hms])]
              have hmv : migrateScreens (jobj l1) =
                  .error "TypeError: raw.screens.map is not a function" := by
                rw [migrateScreens, if_pos hmig, hscr]
              rw [hE, hmv, error_bind]
              rfl
          | jobj l0 =>
              have hms : screensMigrationSafe (jobj l1) = false := by
                unfold screensMigrationSafe
                rw [if_pos hmig, hscr]
              rw [if_neg (by simp [hms])]
              have hmv : migrateScreens (jobj l1) =
                  .error "TypeError: raw.screens.map is not a function" := by
                rw [migrateScreens, if_pos hmig, hscr]
              rw [hE, hmv, error_bind]
              rfl
        · have hms : screensMigrationSafe (jobj l1) = true := by
            unfold screensMigrationSafe
            rw [if_neg hmig]
          rw [if_pos hms]
          have hmv : migrateScreens (jobj l1) = .ok (jobj l1) := by
            rw [migrateScreens, if_neg hmig]
            rfl
          rw [hE, hmv, ok_bind]
          exact tail_wellFormed _
    | jnull => simp [isObj]
    | jundef => simp [isObj]
    | jbool b => simp [isObj]
    | jnum n => simp [isObj]
    | jstr st => simp [isObj]
    | jarr l => simp [isObj]

/-- A document retaining a (nested) layout key: the shape on which a
second normalization unwraps again and diverges. -/
def idemX : JVal := jobj [("layout", jobj [("layout", jobj [])])]

/-- First normalization of idemX: the inner layout object, completed
with pages, theme and tokens; note it still carries a layout key. -/
def idemY : JVal :=
  jobj [("layout", jobj []), ("pages", jarr []),
        ("theme", defaultTheme), ("tokens", defaultTokens)]

/-- Second normalization of idemY: the layout key is unwrapped again,
producing a different document. -/
def idemY2 : JVal :=
  jobj [("pages", jarr []), ("theme", defaultTheme), ("tokens", defaultTokens)]

/-- C7 counterexample: normalize(normalize x) differs from normalize(x)
for x carrying a nested layout wrapper, because the first result retains
the layout key and the second application unwraps it again; so
normalizing an already-normalized document is NOT always a no-op. -/
theorem ensureLayoutShape_not_idempotent :
    ensureLayoutShape idemX = .ok idemY ∧
    ensureLayoutShape idemY = .ok idemY2 ∧ idemY2 ≠ idemY :=
  ⟨rfl, rfl, by decide⟩

/-- A document object with an array pages field, a truthy theme, a
truthy tokens and no truthy-object layout key is a fixed point of the
normalizer. -/
theorem ensureLayoutShape_fix_of_fields (ly : List (String × JVal)) (ps : List JVal)
    (T K : JVal)
    (hfpages : lookupField ly "pages" = some (jarr ps))
    (hftheme : lookupField ly "theme" = some T)
    (hftokens : lookupField ly "tokens" = some K)
    (hTt : truthy T = true) (hKt : truthy K = true)
    (h2 : (truthy (optGet (jobj ly) "layout") &&
      typeofObject (optGet (jobj ly) "layout")) = false) :
    ensureLayoutShape (jobj ly) = .ok (jobj ly) := by
  rw [ensureLayoutShape, if_neg (by simp [truthy])]
  have hunwrap : unwrapLayout (jobj ly) = jobj ly := by
    unfold unwrapLayout
    rw [if_neg (by rw [h2]; simp)]
  rw [hunwrap]
  have hmig : migrateScreens (jobj ly) = .ok (jobj ly) := by
    rw [migrateScreens,
      if_neg (by rw [optGet, propGet, hfpages]; simp [truthy])]
    rfl
  rw [hmig, ok_bind]
  have hpa2 : isArr (optGet (jobj ly) "pages") = true := by
    rw [optGet, propGet, hfpages]
    rfl
  rw [ensurePagesArray, if_pos hpa2,
      show (pure (jobj ly) : Except String JVal) = .ok (jobj ly) from rfl, ok_bind]
  have hTread : themeExprOf (jobj ly) = T := by
    rw [themeExprOf, optGet, propGet, hftheme]
    exact jsOr_of_truthy _ hTt
  rw [setThemeStep, hTread,
      show jsSetField (jobj ly) "theme" T = .ok (jobj (setPair ly "theme" T)) from rfl,
      setPair_self_of_lookup ly "theme" T hftheme, ok_bind]
  rw [setTokensStep, optGet, propGet, hftokens, jsOr_of_truthy _ hKt,
      show jsSetField (jobj ly) "tokens" K = .ok (jobj (setPair ly "tokens" K)) from rfl,
      setPair_self_of_lookup ly "tokens" K hftokens]

/-- C7 (amended): normalization is a no-op on every document it has
itself produced whose layout key is not a truthy object: whenever the
normalized document carries no object-valued layout key, a second
normalization returns it unchanged.  The unrestricted claim fails only
through the repeated layout unwrap. -/
theorem ensureLayoutShape_fixpoint (x y : JVal)
    (h1 : ensureLayoutShape x = .ok y)
    (h2 : (truthy (optGet y "layout") && typeofObject (optGet y "layout")) = false) :
    ensureLayoutShape y = .ok y := by
  by_cases hx : truthy x = false
  · rw [ensureLayoutShape, if_pos hx] at h1
    have hy : y = jnull := by cases h1; rfl
    subst hy
    rfl
  · rw [ensureLayoutShape, if_neg hx] at h1
    obtain ⟨raw2, hraw2, h1b⟩ := bind_ok_elim h1
    obtain ⟨raw3, hraw3, h1c⟩ := bind_ok_elim h1b
    obtain ⟨raw4, hraw4, h1d⟩ := bind_ok_elim h1c
    rw [setThemeStep] at hraw4
    obtain ⟨l3, hraw3o, hraw4v⟩ := jsSetField_ok_elim hraw4
    subst hraw3o
    rw [setTokensStep] at h1d
    obtain ⟨l4, hraw4o, hyv⟩ := jsSetField_ok_elim h1d
    subst hraw4v
    have hl4 : setPair l3 "theme" (themeExprOf (jobj l3)) = l4 := by
      injection hraw4o
    subst hl4
    have hpages : ∃ ps, lookupField l3 "pages" = some (jarr ps) := by
      rw [ensurePagesArray] at hraw3
      by_cases hpa : isArr (optGet raw2 "pages") = true
      · rw [if_pos hpa] at hraw3
        have hr : raw2 = jobj l3 := by cases hraw3; rfl
        rw [hr] at hpa
        exact pages_arr_of_isArr hpa
      · rw [if_neg hpa] at hraw3
        obtain ⟨l2, hr2, hr3⟩ := jsSetField_ok_elim hraw3
        have h3 : jobj l3 = jobj (setPair l2 "pages" (jarr [])) := hr3
        have h4 : l3 = setPair l2 "pages" (jarr []) := by injection h3
        rw [h4]
        exact ⟨[], lookup_setPair_self l2 "pages" (jarr [])⟩
    obtain ⟨ps, hps⟩ := hpages
    rw [hyv] at h2 ⊢
    refine ensureLayoutShape_fix_of_fields _ ps (themeExprOf (jobj l3))
      (jsOr (optGet (jobj (setPair l3 "theme" (themeExprOf (jobj l3)))) "tokens")
        defaultTokens) ?_ ?_ ?_ ?_ ?_ h2
    · rw [lookup_setPair_ne _ _ _ _ (by decide), lookup_setPair_ne _ _ _ _ (by decide)]
      exact hps
    · rw [lookup_setPair_ne _ _ _ _ (by decide)]
      exact lookup_setPair_self l3 "theme" _
    · exact lookup_setPair_self _ "tokens" _
    · exact truthy_themeExpr _
    · exact truthy_jsOr_right rfl

/-- C7 witness for the amended fixpoint theorem: the empty object
normalizes to a canonical document and a second normalization returns
that document unchanged. -/
theorem ensureLayoutShape_fixpoint_witness :
    ensureLayoutShape (jobj []) = .ok idemY2 ∧ ensureLayoutShape idemY2 = .ok idemY2 :=
  ⟨rfl, ensureLayoutShape_fixpoint (jobj []) idemY2 rfl (by decide)⟩

/-! ## convertBackendToFrontend of src/utils/NormalizeBackendLayout.js

The node converter.  Its recursion is not structural (the form branch
converts a freshly built hoisted list), so the definitions below are by
well-founded recursion on the nesting depth jdepth, which the hoisting
construction never increases. -/

/-- canonType: falsy tags are returned as-is; a tag whose String()
conversion lowercases to password or passwordinput becomes the canonical
PasswordInput; every other tag passes through verbatim. -/
def canonType (t : JVal) : JVal :=
  if truthy t = false then t
  else if lowerStr (jsStringOf t) = "password" ∨ lowerStr (jsStringOf t) = "passwordinput"
  then jstr "PasswordInput" else t

/-- The case-insensitive password test applied to a hoisted field's
original type (the regular-expression test coerces its argument with
String()). -/
def passwordTypeTest (f : JVal) : Bool :=
  strContainsPassword (jsStringOf (jsOr (optGet f "type") (jstr "")))

/-- One hoisted form field: id f?.id or field-i, type canonType of
f?.type or TextInput, props a copy of f?.props plus secure: true for
password-like fields. -/
def hoistField (i : Nat) (f : JVal) : JVal :=
  jobj [("id", jsOr (optGet f "id") (jstr ("field-" ++ toString i))),
        ("type", canonType (jsOr (optGet f "type") (jstr "TextInput"))),
        ("props",
          jobj (if passwordTypeTest f
                then setPair (spreadPairs (jsOr (optGet f "props") (jobj []))) "secure" (jbool true)
                else spreadPairs (jsOr (optGet f "props") (jobj []))))]

/-- One hoisted form button: id b?.id or btn-i, type canonType of
b?.type or Button, props a copy of b?.props. -/
def hoistButton (i : Nat) (b : JVal) : JVal :=
  jobj [("id", jsOr (optGet b "id") (jstr ("btn-" ++ toString i))),
        ("type", canonType (jsOr (optGet b "type") (jstr "Button"))),
        ("props", jobj (spreadPairs (jsOr (optGet b "props") (jobj []))))]

def hoistFieldsFrom (i : Nat) : List JVal → List JVal
  | [] => []
  | f :: rest => hoistField i f :: hoistFieldsFrom (i + 1) rest

def hoistButtonsFrom (i : Nat) : List JVal → List JVal
  | [] => []
  | b :: rest => hoistButton i b :: hoistButtonsFrom (i + 1) rest

/-- The spread copy of a component with its type canonicalized
(normalizedComp of the source after the type assignment). -/
def normalizedOf (c : JVal) : List (String × JVal) :=
  setPair (spreadPairs c) "type" (canonType (propGet (spreadPairs c) "type"))

/-- The props working copy: a spread of normalizedComp.props or the
empty object. -/
def propsPairsOf (c : JVal) : List (String × JVal) :=
  spreadPairs (jsOr (propGet (normalizedOf c) "props") (jobj []))

/-- The expression Array.isArray(v) && v of the children seed. -/
def jsAndArr (v : JVal) : JVal := if isArr v then v else jbool false

/-- The children seed of the source: props.children when it is an array,
else props.items when it is an array, else the node's top-level children
attribute when truthy, else the empty array. -/
def seedChildrenOf (c : JVal) : JVal :=
  jsOr (jsAndArr (propGet (propsPairsOf c) "children"))
    (jsOr (jsAndArr (propGet (propsPairsOf c) "items"))
      (jsOr (propGet (normalizedOf c) "children") (jarr [])))

/-- Array.isArray(props.fields) ? props.fields : []. -/
def fieldsArrOf (props : List (String × JVal)) : List JVal :=
  match lookupField props "fields" with
  | some (jarr F) => F
  | _ => []

/-- Array.isArray(props.buttons) ? props.buttons : []. -/
def buttonsArrOf (props : List (String × JVal)) : List JVal :=
  match lookupField props "buttons" with
  | some (jarr B) => B
  | _ => []

/-- The hoisted child list of a form: hoisted fields then hoisted
buttons, in their original orders. -/
def hoistedOf (c : JVal) : List JVal :=
  hoistFieldsFrom 0 (fieldsArrOf (propsPairsOf c)) ++
    hoistButtonsFrom 0 (buttonsArrOf (propsPairsOf c))

/-- The form test (normalizedComp.type or the empty string) lowercased
and compared to form; calling toLowerCase on a truthy non-string type
throws. -/
def formCheckOf (c : JVal) : Except String Bool :=
  match jsOr (propGet (normalizedOf c) "type") (jstr "") with
  | jstr s => .ok (lowerStr s == "form")
  | _ => .error "TypeError: normalizedComp.type.toLowerCase is not a function"

theorem jdepthL_cons (x : JVal) (xs : List JVal) :
    jdepthL (x :: xs) = max (jdepth x) (jdepthL xs) := rfl

theorem jdepthF_cons (p : String × JVal) (l : List (String × JVal)) :
    jdepthF (p :: l) = max (jdepth p.2) (jdepthF l) := rfl

theorem jdepthL_append : ∀ (a b : List JVal),
    jdepthL (a ++ b) = max (jdepthL a) (jdepthL b) := by
  intro a b
  induction a with
  | nil => simp [jdepthL]
  | cons x xs ih => simp [jdepthL_cons, ih, Nat.max_assoc]

theorem jdepthF_lookup_le : ∀ {l : List (String × JVal)} {k : String} {v : JVal},
    lookupField l k = some v → jdepth v ≤ jdepthF l := by
  intro l
  induction l with
  | nil => intro k v h; simp [lookupField] at h
  | cons p rest ih =>
      intro k v h
      simp only [lookupField] at h
      by_cases hk : p.1 = k
      · rw [if_pos hk] at h
        cases h
        rw [jdepthF_cons]
        omega
      · rw [if_neg hk] at h
        have := ih h
        rw [jdepthF_cons]
        omega

theorem jdepth_propGet_le (l : List (String × JVal)) (k : String) :
    jdepth (propGet l k) ≤ jdepthF l := by
  rw [propGet]
  cases h : lookupField l k with
  | none => simp [jdepth]
  | some v => exact jdepthF_lookup_le h

theorem jdepth_optGet_succ_le (v : JVal) (k : String) :
    jdepth (optGet v k) + 1 ≤ max (jdepth v) 1 := by
  cases v <;> simp [optGet, jdepth]
  case jobj l =>
      have := jdepth_propGet_le l k
      omega

theorem jdepthF_indexedPairs : ∀ (l : List JVal) (i : Nat),
    jdepthF (indexedPairs i l) = jdepthL l := by
  intro l
  induction l with
  | nil => intro i; rfl
  | cons v rest ih =>
      intro i
      simp [indexedPairs, jdepthF_cons, jdepthL_cons, ih]

theorem jdepthF_indexedCharPairs : ∀ (l : List Char) (i : Nat),
    jdepthF (indexedCharPairs i l) = 0 := by
  intro l
  induction l with
  | nil => intro i; rfl
  | cons ch rest ih =>
      intro i
      simp [indexedCharPairs, jdepthF_cons, ih, jdepth]

theorem jdepthF_spread_succ_le (w : JVal) :
    jdepthF (spreadPairs w) + 1 ≤ max (jdepth w) 1 := by
  cases w <;> simp [spreadPairs, jdepthF, jdepth]
  case jstr s => simp [jdepthF_indexedCharPairs]
  case jarr l => simp [jdepthF_indexedPairs]; omega
  case jobj l => omega

theorem jdepthF_setPair_le : ∀ (l : List (String × JVal)) (k : String) (v : JVal),
    jdepthF (setPair l k v) ≤ max (jdepthF l) (jdepth v) := by
  intro l k v
  induction l with
  | nil => simp [setPair, jdepthF_cons, jdepthF]
  | cons p rest ih =>
      by_cases hk : p.1 = k
      · obtain ⟨k0, v0⟩ := p
        simp only at hk
        simp [setPair, hk, jdepthF_cons]
        omega
      · obtain ⟨k0, v0⟩ := p
        simp only at hk
        simp [setPair, hk, jdepthF_cons]
        omega

theorem jdepthF_removeField_le : ∀ (l : List (String × JVal)) (k : String),
    jdepthF (removeField l k) ≤ jdepthF l := by
  intro l k
  induction l with
  | nil => simp [removeField]
  | cons p rest ih =>
      by_cases hk : p.1 = k
      · obtain ⟨k0, v0⟩ := p
        simp only at hk
        simp [removeField, hk, jdepthF_cons]
        omega
      · obtain ⟨k0, v0⟩ := p
        simp only at hk
        simp [removeField, hk, jdepthF_cons]
        omega

theorem jdepth_jsOr_le (a b : JVal) :
    jdepth (jsOr a b) ≤ max (jdepth a) (jdepth b) := by
  rw [jsOr]
  split <;> omega

theorem jdepth_jsAndArr_le (v : JVal) : jdepth (jsAndArr v) ≤ jdepth v := by
  rw [jsAndArr]
  split
  · exact Nat.le_refl _
  · simp [jdepth]

theorem jdepth_canonType_le (t : JVal) : jdepth (canonType t) ≤ jdepth t := by
  rw [canonType]
  split
  · exact Nat.le_refl _
  · split
    · simp [jdepth]
    · exact Nat.le_refl _

theorem jdepthF_normalizedOf_succ_le (c : JVal) :
    jdepthF (normalizedOf c) + 1 ≤ max (jdepth c) 1 := by
  rw [normalizedOf]
  have h1 := jdepthF_setPair_le (spreadPairs c) "type"
    (canonType (propGet (spreadPairs c) "type"))
  have h2 := jdepth_canonType_le (propGet (spreadPairs c) "type")
  have h3 := jdepth_propGet_le (spreadPairs c) "type"
  have h4 := jdepthF_spread_succ_le c
  omega

theorem jdepthF_propsPairsOf_le (c : JVal) :
    jdepthF (propsPairsOf c) + 2 ≤ max (jdepth c) 2 := by
  rw [propsPairsOf]
  have h1 := jdepthF_spread_succ_le (jsOr (propGet (normalizedOf c) "props") (jobj []))
  have h2 := jdepth_jsOr_le (propGet (normalizedOf c) "props") (jobj [])
  have h3 := jdepth_propGet_le (normalizedOf c) "props"
  have h4 := jdepthF_normalizedOf_succ_le c
  have h5 : jdepth (jobj ([] : List (String × JVal))) = 1 := rfl
  omega

theorem jdepth_seedChildrenOf_le (c : JVal) (hc : 1 ≤ jdepth c) :
    jdepth (seedChildrenOf c) ≤ jdepth c := by
  rw [seedChildrenOf]
  have h1 := jdepth_jsOr_le (jsAndArr (propGet (propsPairsOf c) "children"))
    (jsOr (jsAndArr (propGet (propsPairsOf c) "items"))
      (jsOr (propGet (normalizedOf c) "children") (jarr [])))
  have h2 := jdepth_jsOr_le (jsAndArr (propGet (propsPairsOf c) "items"))
    (jsOr (propGet (normalizedOf c) "children") (jarr []))
  have h3 := jdepth_jsOr_le (propGet (normalizedOf c) "children") (jarr [])
  have h4 := jdepth_jsAndArr_le (propGet (propsPairsOf c) "children")
  have h5 := jdepth_jsAndArr_le (propGet (propsPairsOf c) "items")
  have h6 := jdepth_propGet_le (propsPairsOf c) "children"
  have h7 := jdepth_propGet_le (propsPairsOf c) "items"
  have h8 := jdepth_propGet_le (normalizedOf c) "children"
  have h9 := jdepthF_propsPairsOf_le c
  have h10 := jdepthF_normalizedOf_succ_le c
  have h11 : jdepth (jarr ([] : List JVal)) = 1 := rfl
  omega

theorem jdepth_hoistField_le (i : Nat) (f : JVal) :
    jdepth (hoistField i f) ≤ max (jdepth f) 2 := by
  rw [hoistField]
  have hid := jdepth_jsOr_le (optGet f "id") (jstr ("field-" ++ toString i))
  have hid2 := jdepth_optGet_succ_le f "id"
  have hty := jdepth_canonType_le (jsOr (optGet f "type") (jstr "TextInput"))
  have hty2 := jdepth_jsOr_le (optGet f "type") (jstr "TextInput")
  have hty3 := jdepth_optGet_succ_le f "type"
  have hpr : jdepthF (if passwordTypeTest f
      then setPair (spreadPairs (jsOr (optGet f "props") (jobj []))) "secure" (jbool true)
      else spreadPairs (jsOr (optGet f "props") (jobj []))) + 2 ≤ max (jdepth f) 2 := by
    have hsp := jdepthF_spread_succ_le (jsOr (optGet f "props") (jobj []))
    have hso := jdepth_jsOr_le (optGet f "props") (jobj [])
    have hsg := jdepth_optGet_succ_le f "props"
    have hse := jdepthF_setPair_le (spreadPairs (jsOr (optGet f "props") (jobj [])))
      "secure" (jbool true)
    have hb : jdepth (jbool true) = 0 := rfl
    have he : jdepth (jobj ([] : List (String × JVal))) = 1 := rfl
    split <;> omega
  simp only [jdepth, jdepthF_cons, jdepthF]
  have hs1 : jdepth (jstr ("field-" ++ toString i)) = 0 := rfl
  have hs2 : jdepth (jstr "TextInput") = 0 := rfl
  omega

theorem jdepth_hoistButton_le (i : Nat) (b : JVal) :
    jdepth (hoistButton i b) ≤ max (jdepth b) 2 := by
  rw [hoistButton]
  have hid := jdepth_jsOr_le (optGet b "id") (jstr ("btn-" ++ toString i))
  have hid2 := jdepth_optGet_succ_le b "id"
  have hty := jdepth_canonType_le (jsOr (optGet b "type") (jstr "Button"))
  have hty2 := jdepth_jsOr_le (optGet b "type") (jstr "Button")
  have hty3 := jdepth_optGet_succ_le b "type"
  have hsp := jdepthF_spread_succ_le (jsOr (optGet b "props") (jobj []))
  have hso := jdepth_jsOr_le (optGet b "props") (jobj [])
  have hsg := jdepth_optGet_succ_le b "props"
  have he : jdepth (jobj ([] : List (String × JVal))) = 1 := rfl
  simp only [jdepth, jdepthF_cons, jdepthF]
  have hs1 : jdepth (jstr ("btn-" ++ toString i)) = 0 := rfl
  have hs2 : jdepth (jstr "Button") = 0 := rfl
  omega

theorem jdepthL_hoistFieldsFrom_le : ∀ (F : List JVal) (i : Nat),
    jdepthL (hoistFieldsFrom i F) ≤ max (jdepthL F) 2 := by
  intro F
  induction F with
  | nil => intro i; simp [hoistFieldsFrom, jdepthL]
  | cons f rest ih =>
      intro i
      have h1 := jdepth_hoistField_le i f
      have h2 := ih (i + 1)
      simp only [hoistFieldsFrom, jdepthL_cons]
      omega

theorem jdepthL_hoistButtonsFrom_le : ∀ (B : List JVal) (i : Nat),
    jdepthL (hoistButtonsFrom i B) ≤ max (jdepthL B) 2 := by
  intro B
  induction B with
  | nil => intro i; simp [hoistButtonsFrom, jdepthL]
  | cons b rest ih =>
      intro i
      have h1 := jdepth_hoistButton_le i b
      have h2 := ih (i + 1)
      simp only [hoistButtonsFrom, jdepthL_cons]
      omega

theorem jdepthL_fieldsArrOf (props : List (String × JVal)) :
    fieldsArrOf props = [] ∨ jdepthL (fieldsArrOf props) + 1 ≤ jdepthF props := by
  cases h : lookupField props "fields" with
  | none => left; rw [fieldsArrOf, h]
  | some v =>
      cases v with
      | jarr F =>
          right
          have hle := jdepthF_lookup_le h
          simp only [jdepth] at hle
          have hFe : fieldsArrOf props = F := by rw [fieldsArrOf, h]
          rw [hFe]
          omega
      | jnull => left; rw [fieldsArrOf, h]
      | jundef => left; rw [fieldsArrOf, h]
      | jbool b => left; rw [fieldsArrOf, h]
      | jnum n => left; rw [fieldsArrOf, h]
      | jstr s => left; rw [fieldsArrOf, h]
      | jobj l => left; rw [fieldsArrOf, h]

theorem jdepthL_buttonsArrOf (props : List (String × JVal)) :
    buttonsArrOf props = [] ∨ jdepthL (buttonsArrOf props) + 1 ≤ jdepthF props := by
  cases h : lookupField props "buttons" with
  | none => left; rw [buttonsArrOf, h]
  | some v =>
      cases v with
      | jarr B =>
          right
          have hle := jdepthF_lookup_le h
          simp only [jdepth] at hle
          have hBe : buttonsArrOf props = B := by rw [buttonsArrOf, h]
          rw [hBe]
          omega
      | jnull => left; rw [buttonsArrOf, h]
      | jundef => left; rw [buttonsArrOf, h]
      | jbool b => left; rw [buttonsArrOf, h]
      | jnum n => left; rw [buttonsArrOf, h]
      | jstr s => left; rw [buttonsArrOf, h]
      | jobj l => left; rw [buttonsArrOf, h]

theorem jdepthL_hoistedOf_lt (c : JVal) (hc : 1 ≤ jdepth c) :
    1 + jdepthL (hoistedOf c) ≤ jdepth c := by
  rw [hoistedOf, jdepthL_append]
  have hp := jdepthF_propsPairsOf_le c
  have hF := jdepthL_fieldsArrOf (propsPairsOf c)
  have hB := jdepthL_buttonsArrOf (propsPairsOf c)
  have hhF := jdepthL_hoistFieldsFrom_le (fieldsArrOf (propsPairsOf c)) 0
  have hhB := jdepthL_hoistButtonsFrom_le (buttonsArrOf (propsPairsOf c)) 0
  rcases hF with hF | hF
  · rcases hB with hB | hB
    · rw [hF, hB]
      simp [hoistFieldsFrom, hoistButtonsFrom, jdepthL]
      omega
    · rw [hF] at hhF ⊢
      simp only [hoistFieldsFrom, jdepthL] at hhF ⊢
      omega
  · rcases hB with hB | hB
    · rw [hB] at hhB ⊢
      simp only [hoistButtonsFrom, jdepthL] at hhB ⊢
      omega
    · omega

theorem jdepth_pos_of_objlike {c : JVal}
    (h : ¬(truthy c = false ∨ typeofObject c = false)) : 1 ≤ jdepth c := by
  push_neg at h
  cases c <;> simp_all [truthy, typeofObject, jdepth]

mutual
/-- convertBackendToFrontend of src/utils/NormalizeBackendLayout.js:
non-arrays convert to the empty array, arrays map convertComp over their
elements. -/
def convertBackendToFrontend (components : JVal) : Except String JVal :=
  match components with
  | jarr l => (convertElems l).map jarr
  | _ => .ok (jarr [])
termination_by (jdepth components, 1, 0)
decreasing_by
  exact lexNat3 (Or.inr ⟨rfl, Or.inl (by omega)⟩)

/-- Elementwise conversion (the components.map of the source). -/
def convertElems (l : List JVal) : Except String (List JVal) :=
  match l with
  | [] => .ok []
  | c :: rest => do
      let c2 ← convertComp c
      let rest2 ← convertElems rest
      .ok (c2 :: rest2)
termination_by (1 + jdepthL l, 0, l.length)
decreasing_by
  · exact lexNat3 (Or.inl (by have := jdepthL_cons x xs; omega))
  · exact lexNat3 (by
      have := jdepthL_cons x xs
      have hlen : (x :: xs).length = xs.length + 1 := rfl
      rcases Nat.lt_or_ge (1 + jdepthL xs) (1 + jdepthL (x :: xs)) with h | h
      · exact Or.inl h
      · exact Or.inr ⟨by omega, Or.inr ⟨rfl, by omega⟩⟩)

/-- The per-component conversion closure of the source: falsy or
non-object components pass through; otherwise the spread copy gets a
canonicalized type, hoisted form children or the converted children
seed, and props cleaned of the structural keys (fields/buttons only on
the form branch, children/items always). -/
def convertComp (c : JVal) : Except String JVal :=
  if hc : truthy c = false ∨ typeofObject c = false then .ok c
  else do
    let isForm ← formCheckOf c
    if isForm then do
      let hoistedConv ← convertElems (hoistedOf c)
      .ok (jobj (setPair (setPair (normalizedOf c) "children" (jarr hoistedConv)) "props"
        (jobj (removeField (removeField
          (removeField (removeField (propsPairsOf c) "fields") "buttons") "children") "items"))))
    else do
      let childrenConv ← convertBackendToFrontend (seedChildrenOf c)
      .ok (jobj (setPair (setPair (normalizedOf c) "children" childrenConv) "props"
        (jobj (removeField (removeField (propsPairsOf c) "children") "items"))))
termination_by (jdepth c, 2, 0)
decreasing_by
  · exact lexNat3 (by
      have h1 := jdepthL_hoistedOf_lt c (jdepth_pos_of_objlike hc)
      rcases Nat.lt_or_ge (1 + jdepthL (hoistedOf c)) (jdepth c) with h | h
      · exact Or.inl h
      · exact Or.inr ⟨by omega, Or.inl (by omega)⟩)
  · exact lexNat3 (by
      have h1 := jdepth_seedChildrenOf_le c (jdepth_pos_of_objlike hc)
      rcases Nat.lt_or_ge (jdepth (seedChildrenOf c)) (jdepth c) with h | h
      · exact Or.inl h
      · exact Or.inr ⟨by omega, Or.inl (by omega)⟩)
end

/-- Field projection on an object value. -/
def objLookup : JVal → String → Option JVal
  | jobj l, k => lookupField l k
  | _, _ => none

theorem lookup_removeField_ne : ∀ (l : List (String × JVal)) (k k2 : String),
    k2 ≠ k → lookupField (removeField l k) k2 = lookupField l k2 := by
  intro l k k2 hne
  induction l with
  | nil => rfl
  | cons p rest ih =>
      obtain ⟨k0, v0⟩ := p
      by_cases hk : k0 = k
      · subst hk
        have h2 : k0 ≠ k2 := fun h => hne h.symm
        simp [removeField, lookupField, h2, ih]
      · simp only [removeField, if_neg hk]
        by_cases h2 : k0 = k2
        · simp [lookupField, h2]
        · simp [lookupField, h2, ih]

theorem lookup_removeField_self : ∀ (l : List (String × JVal)) (k : String),
    lookupField (removeField l k) k = none := by
  intro l k
  induction l with
  | nil => rfl
  | cons p rest ih =>
      obtain ⟨k0, v0⟩ := p
      by_cases hk : k0 = k
      · simp [removeField, hk, ih]
      · simp [removeField, hk, lookupField, ih]

/-- Case analysis of a successful component conversion: the component is
either a form (children from the hoisted list, props cleaned of fields,
buttons, children and items) or a non-form (children from the seed,
props cleaned of children and items). -/
theorem convertComp_ok_cases {c out : JVal}
    (hc : ¬(truthy c = false ∨ typeofObject c = false))
    (hok : convertComp c = .ok out) :
    (formCheckOf c = .ok true ∧ ∃ cs, convertElems (hoistedOf c) = .ok cs ∧
        out = jobj (setPair (setPair (normalizedOf c) "children" (jarr cs)) "props"
          (jobj (removeField (removeField (removeField (removeField
            (propsPairsOf c) "fields") "buttons") "children") "items")))) ∨
    (formCheckOf c = .ok false ∧ ∃ ch, convertBackendToFrontend (seedChildrenOf c) = .ok ch ∧
        out = jobj (setPair (setPair (normalizedOf c) "children" ch) "props"
          (jobj (removeField (removeField (propsPairsOf c) "children") "items")))) := by
  rw [convertComp, dif_neg hc] at hok
  obtain ⟨b, hb, h2⟩ := bind_ok_elim hok
  cases b with
  | true =>
      left
      rw [if_pos rfl] at h2
      obtain ⟨cs, hcs, h3⟩ := bind_ok_elim h2
      refine ⟨hb, cs, hcs, ?_⟩
      cases h3
      rfl
  | false =>
      right
      rw [if_neg (by simp)] at h2
      obtain ⟨ch, hch, h3⟩ := bind_ok_elim h2
      refine ⟨hb, ch, hch, ?_⟩
      cases h3
      rfl

/-- Unified output shape of a successful component conversion: a spread
copy with canonicalized type, a children slot, and a props object whose
non-structural keys are those of the working props copy. -/
theorem convertComp_ok_shape {c out : JVal}
    (hc : ¬(truthy c = false ∨ typeofObject c = false))
    (hok : convertComp c = .ok out) :
    ∃ CH CP, out = jobj (setPair (setPair (normalizedOf c) "children" CH) "props" (jobj CP)) ∧
      (∀ k, k ≠ "fields" → k ≠ "buttons" → k ≠ "children" → k ≠ "items" →
        lookupField CP k = lookupField (propsPairsOf c) k) ∧
      lookupField CP "children" = none ∧ lookupField CP "items" = none := by
  rcases convertComp_ok_cases hc hok with ⟨_, cs, _, hout⟩ | ⟨_, ch, _, hout⟩
  · refine ⟨jarr cs, _, hout, ?_, ?_, ?_⟩
    · intro k h1 h2 h3 h4
      rw [lookup_removeField_ne _ _ _ h4, lookup_removeField_ne _ _ _ h3,
          lookup_removeField_ne _ _ _ h2, lookup_removeField_ne _ _ _ h1]
    · rw [lookup_removeField_ne _ _ _ (by decide)]
      exact lookup_removeField_self _ "children"
    · exact lookup_removeField_self _ "items"
  · refine ⟨ch, _, hout, ?_, ?_, ?_⟩
    · intro k h1 h2 h3 h4
      rw [lookup_removeField_ne _ _ _ h4, lookup_removeField_ne _ _ _ h3]
    · rw [lookup_removeField_ne _ _ _ (by decide)]
      exact lookup_removeField_self _ "children"
    · exact lookup_removeField_self _ "items"

/-- Children projection of the converted output shape. -/
theorem outShape_children (N : List (String × JVal)) (CH : JVal) (P : JVal) :
    lookupField (setPair (setPair N "children" CH) "props" P) "children" = some CH := by
  rw [lookup_setPair_ne _ _ _ _ (by decide)]
  exact lookup_setPair_self N "children" CH

/-- Props projection of the converted output shape. -/
theorem outShape_props (N : List (String × JVal)) (CH : JVal) (P : JVal) :
    lookupField (setPair (setPair N "children" CH) "props" P) "props" = some P :=
  lookup_setPair_self _ "props" P

/-- Any other key of the converted output shape reads from the
normalized copy. -/
theorem outShape_other (N : List (String × JVal)) (CH : JVal) (P : JVal) (k : String)
    (h1 : k ≠ "children") (h2 : k ≠ "props") :
    lookupField (setPair (setPair N "children" CH) "props" P) k = lookupField N k := by
  rw [lookup_setPair_ne _ _ _ _ h2, lookup_setPair_ne _ _ _ _ h1]

theorem canonType_idem (t : JVal) : canonType (canonType t) = canonType t := by
  by_cases h1 : truthy t = false
  · have h : canonType t = t := by rw [canonType, if_pos h1]
    rw [h]
    exact h
  · by_cases h2 : lowerStr (jsStringOf t) = "password" ∨ lowerStr (jsStringOf t) = "passwordinput"
    · have h : canonType t = jstr "PasswordInput" := by rw [canonType, if_neg h1, if_pos h2]
      have h3 : canonType (jstr "PasswordInput") = jstr "PasswordInput" := by
        rw [canonType, if_neg (by simp [truthy])]
        exact ite_self _
      rw [h, h3]
    · have h : canonType t = t := by rw [canonType, if_neg h1, if_neg h2]
      rw [h]
      exact h

theorem convertElems_nget : ∀ {L cs : List JVal}, convertElems L = .ok cs →
    cs.length = L.length ∧
      ∀ i e, nget L i = some e → ∃ o, convertComp e = .ok o ∧ nget cs i = some o := by
  intro L
  induction L with
  | nil =>
      intro cs h
      rw [convertElems] at h
      cases h
      exact ⟨rfl, fun i e he => by simp [nget] at he⟩
  | cons c rest ih =>
      intro cs h
      rw [convertElems] at h
      obtain ⟨o, ho, h2⟩ := bind_ok_elim h
      obtain ⟨os, hos, h3⟩ := bind_ok_elim h2
      cases h3
      obtain ⟨hlen, hidx⟩ := ih hos
      constructor
      · simp [hlen]
      · intro i e he
        cases i with
        | zero =>
            simp only [nget] at he
            cases he
            exact ⟨o, ho, rfl⟩
        | succ n =>
            simp only [nget] at he ⊢
            exact hidx n e he

theorem hoistFieldsFrom_length : ∀ (F : List JVal) (i : Nat),
    (hoistFieldsFrom i F).length = F.length := by
  intro F
  induction F with
  | nil => intro i; rfl
  | cons f rest ih => intro i; simp [hoistFieldsFrom, ih]

theorem hoistButtonsFrom_length : ∀ (B : List JVal) (i : Nat),
    (hoistButtonsFrom i B).length = B.length := by
  intro B
  induction B with
  | nil => intro i; rfl
  | cons b rest ih => intro i; simp [hoistButtonsFrom, ih]

theorem nget_hoistFieldsFrom : ∀ (F : List JVal) (k i : Nat) (f : JVal),
    nget F i = some f → nget (hoistFieldsFrom k F) i = some (hoistField (k + i) f) := by
  intro F
  induction F with
  | nil => intro k i f h; simp [nget] at h
  | cons g rest ih =>
      intro k i f h
      cases i with
      | zero =>
          simp only [nget] at h
          cases h
          rfl
      | succ n =>
          have h2 : nget rest n = some f := h
          have h3 : nget (hoistFieldsFrom k (g :: rest)) (n + 1)
              = nget (hoistFieldsFrom (k + 1) rest) n := rfl
          rw [h3, ih (k + 1) n f h2]
          congr 2
          omega

theorem nget_hoistButtonsFrom : ∀ (B : List JVal) (k j : Nat) (b : JVal),
    nget B j = some b → nget (hoistButtonsFrom k B) j = some (hoistButton (k + j) b) := by
  intro B
  induction B with
  | nil => intro k j b h; simp [nget] at h
  | cons g rest ih =>
      intro k j b h
      cases j with
      | zero =>
          simp only [nget] at h
          cases h
          rfl
      | succ n =>
          have h2 : nget rest n = some b := h
          have h3 : nget (hoistButtonsFrom k (g :: rest)) (n + 1)
              = nget (hoistButtonsFrom (k + 1) rest) n := rfl
          rw [h3, ih (k + 1) n b h2]
          congr 2
          omega

theorem nget_append_left {α : Type} : ∀ (A B : List α) (i : Nat),
    i < A.length → nget (A ++ B) i = nget A i := by
  intro A
  induction A with
  | nil => intro B i h; simp at h
  | cons a rest ih =>
      intro B i h
      cases i with
      | zero => rfl
      | succ n =>
          simp only [List.cons_append, nget]
          exact ih B n (by simpa using h)

theorem nget_append_right {α : Type} : ∀ (A B : List α) (j : Nat),
    nget (A ++ B) (A.length + j) = nget B j := by
  intro A
  induction A with
  | nil => intro B j; simp
  | cons a rest ih =>
      intro B j
      have hl : (a :: rest).length + j = (rest.length + j) + 1 := by simp; omega
      rw [hl]
      simp only [List.cons_append, nget]
      exact ih B j

theorem nget_some_lt {α : Type} : ∀ {l : List α} {i : Nat} {a : α},
    nget l i = some a → i < l.length := by
  intro l
  induction l with
  | nil => intro i a h; simp [nget] at h
  | cons x rest ih =>
      intro i a h
      cases i with
      | zero => simp
      | succ n =>
          have h2 : nget rest n = some a := h
          have := ih h2
          simp
          omega

/-- A converted hoisted field keeps the hoisted id, carries the
canonicalized hoisted type (canonType is idempotent), and for a
password-like original type its props carry secure: true. -/
theorem hoistField_converted {i : Nat} {f o : JVal}
    (hok : convertComp (hoistField i f) = Except.ok o) :
    objLookup o "id" = some (jsOr (optGet f "id") (jstr ("field-" ++ toString i))) ∧
    objLookup o "type" = some (canonType (jsOr (optGet f "type") (jstr "TextInput"))) ∧
    (passwordTypeTest f = true →
      ∃ P, objLookup o "props" = some (jobj P) ∧
        lookupField P "secure" = some (jbool true)) := by
  have hobj : ¬(truthy (hoistField i f) = false ∨ typeofObject (hoistField i f) = false) := by
    simp [hoistField, truthy, typeofObject]
  obtain ⟨CH, CP, hout, hkeep, hch, hit⟩ := convertComp_ok_shape hobj hok
  subst hout
  refine ⟨?_, ?_, ?_⟩
  · simp only [objLookup]
    rw [outShape_other _ _ _ _ (by decide) (by decide)]
    rfl
  · simp only [objLookup]
    rw [outShape_other _ _ _ _ (by decide) (by decide)]
    have h1 : lookupField (normalizedOf (hoistField i f)) "type"
        = some (canonType (canonType (jsOr (optGet f "type") (jstr "TextInput")))) := rfl
    rw [h1, canonType_idem]
  · intro hpw
    refine ⟨CP, ?_, ?_⟩
    · simp only [objLookup]
      exact outShape_props _ _ _
    · rw [hkeep "secure" (by decide) (by decide) (by decide) (by decide)]
      have h2 : propsPairsOf (hoistField i f)
          = (if passwordTypeTest f
             then setPair (spreadPairs (jsOr (optGet f "props") (jobj []))) "secure" (jbool true)
             else spreadPairs (jsOr (optGet f "props") (jobj []))) := rfl
      rw [h2, if_pos hpw]
      exact lookup_setPair_self _ _ _

/-- A converted hoisted button keeps the hoisted id and carries the
canonicalized hoisted type. -/
theorem hoistButton_converted {j : Nat} {b o : JVal}
    (hok : convertComp (hoistButton j b) = Except.ok o) :
    objLookup o "id" = some (jsOr (optGet b "id") (jstr ("btn-" ++ toString j))) ∧
    objLookup o "type" = some (canonType (jsOr (optGet b "type") (jstr "Button"))) := by
  have hobj : ¬(truthy (hoistButton j b) = false ∨ typeofObject (hoistButton j b) = false) := by
    simp [hoistButton, truthy, typeofObject]
  obtain ⟨CH, CP, hout, hkeep, hch, hit⟩ := convertComp_ok_shape hobj hok
  subst hout
  refine ⟨?_, ?_⟩
  · simp only [objLookup]
    rw [outShape_other _ _ _ _ (by decide) (by decide)]
    rfl
  · simp only [objLookup]
    rw [outShape_other _ _ _ _ (by decide) (by decide)]
    have h1 : lookupField (normalizedOf (hoistButton j b)) "type"
        = some (canonType (canonType (jsOr (optGet b "type") (jstr "Button")))) := rfl
    rw [h1, canonType_idem]

/-- C3: form hoisting.  For every component that converts successfully
and whose (canonicalized) tag lowercases to form, the converted children
are exactly the hoisted props.fields in original order followed by the
hoisted props.buttons in original order: the i-th field child has id
f.id or field-i and type canonType(f.type or TextInput), and when the
original field type contains password case-insensitively its props
carry secure: true; the j-th button child (placed after all fields) has
id b.id or btn-j and type canonType(b.type or Button); and the converted
props object retains neither fields nor buttons. -/
theorem convert_form_hoisting {c out : JVal}
    (hobj : ¬(truthy c = false ∨ typeofObject c = false))
    (hform : formCheckOf c = Except.ok true)
    (hok : convertComp c = Except.ok out) :
    ∃ cs, objLookup out "children" = some (jarr cs) ∧
      cs.length = (fieldsArrOf (propsPairsOf c)).length +
        (buttonsArrOf (propsPairsOf c)).length ∧
      (∀ i f, nget (fieldsArrOf (propsPairsOf c)) i = some f →
        ∃ o, nget cs i = some o ∧
          objLookup o "id" = some (jsOr (optGet f "id") (jstr ("field-" ++ toString i))) ∧
          objLookup o "type" = some (canonType (jsOr (optGet f "type") (jstr "TextInput"))) ∧
          (passwordTypeTest f = true →
            ∃ P, objLookup o "props" = some (jobj P) ∧
              lookupField P "secure" = some (jbool true))) ∧
      (∀ j b, nget (buttonsArrOf (propsPairsOf c)) j = some b →
        ∃ o, nget cs ((fieldsArrOf (propsPairsOf c)).length + j) = some o ∧
          objLookup o "id" = some (jsOr (optGet b "id") (jstr ("btn-" ++ toString j))) ∧
          objLookup o "type" = some (canonType (jsOr (optGet b "type") (jstr "Button")))) ∧
      (∃ P, objLookup out "props" = some (jobj P) ∧
        lookupField P "fields" = none ∧ lookupField P "buttons" = none) := by
  rcases convertComp_ok_cases hobj hok with ⟨_, cs, hcs, hout⟩ | ⟨hff, _, _, _⟩
  · subst hout
    obtain ⟨hlen, hidx⟩ := convertElems_nget hcs
    refine ⟨cs, ?_, ?_, ?_, ?_, ?_⟩
    · simp only [objLookup]
      exact outShape_children _ _ _
    · rw [hlen, hoistedOf, List.length_append, hoistFieldsFrom_length, hoistButtonsFrom_length]
    · intro i f hf
      have hilt : i < (fieldsArrOf (propsPairsOf c)).length := nget_some_lt hf
      have h1 : nget (hoistedOf c) i = some (hoistField i f) := by
        rw [hoistedOf, nget_append_left _ _ _ (by rw [hoistFieldsFrom_length]; exact hilt)]
        have h2 := nget_hoistFieldsFrom _ 0 i f hf
        simpa using h2
      obtain ⟨o, ho, hcso⟩ := hidx i (hoistField i f) h1
      obtain ⟨hid, hty, hsec⟩ := hoistField_converted ho
      exact ⟨o, hcso, hid, hty, hsec⟩
    · intro j b hb
      have h1 : nget (hoistedOf c) ((fieldsArrOf (propsPairsOf c)).length + j)
          = some (hoistButton j b) := by
        rw [hoistedOf]
        have hl : (fieldsArrOf (propsPairsOf c)).length
            = (hoistFieldsFrom 0 (fieldsArrOf (propsPairsOf c))).length :=
          (hoistFieldsFrom_length _ _).symm
        rw [hl, nget_append_right]
        have h2 := nget_hoistButtonsFrom _ 0 j b hb
        simpa using h2
      obtain ⟨o, ho, hcso⟩ := hidx _ _ h1
      obtain ⟨hid, hty⟩ := hoistButton_converted ho
      exact ⟨o, hcso, hid, hty⟩
    · refine ⟨removeField (removeField (removeField (removeField
          (propsPairsOf c) "fields") "buttons") "children") "items", ?_, ?_, ?_⟩
      · simp only [objLookup]
        exact outShape_props _ _ _
      · rw [lookup_removeField_ne _ _ _ (by decide), lookup_removeField_ne _ _ _ (by decide),
            lookup_removeField_ne _ _ _ (by decide)]
        exact lookup_removeField_self _ _
      · rw [lookup_removeField_ne _ _ _ (by decide), lookup_removeField_ne _ _ _ (by decide)]
        exact lookup_removeField_self _ _
  · have h3 : Except.ok (ε := String) true = Except.ok false := hform.symm.trans hff
    simp at h3

/-- A form whose single field has original type SecretPassword: it
matches the case-insensitive password pattern, so the claimed behaviour
would canonicalize its type to PasswordInput. -/
def formCexComp : JVal :=
  jobj [("type", jstr "Form"),
        ("props", jobj [("fields", jarr [jobj [("type", jstr "SecretPassword")]])])]

/-- The converted output of formCexComp: secure: true is injected, but
the emitted type stays SecretPassword because the alias table only maps
the exact tags password and passwordinput. -/
def formCexOut : JVal :=
  jobj [("type", jstr "Form"), ("props", jobj []),
        ("children", jarr [jobj [("id", jstr "field-0"), ("type", jstr "SecretPassword"),
          ("props", jobj [("secure", jbool true)]), ("children", jarr [])]])]

/-- C3 counterexample: a field of original type SecretPassword matches
the case-insensitive password pattern (it receives secure: true), yet
its emitted type is SecretPassword, not PasswordInput — canonType only
rewrites the exact tags password/passwordinput, so the claimed type
canonicalization of every password-matching field does not happen. -/
theorem convert_form_hoisting_cex :
    strContainsPassword "SecretPassword" = true ∧
    convertComp formCexComp = Except.ok formCexOut ∧
    objLookup formCexOut "children" = some (jarr [jobj [("id", jstr "field-0"),
      ("type", jstr "SecretPassword"), ("props", jobj [("secure", jbool true)]),
      ("children", jarr [])]]) ∧
    jstr "SecretPassword" ≠ jstr "PasswordInput" := by
  refine ⟨by decide, ?_, rfl, by simp⟩
  simp [formCexComp, formCexOut, convertComp, convertElems, convertBackendToFrontend,
    formCheckOf, normalizedOf, propsPairsOf, seedChildrenOf, hoistedOf, fieldsArrOf,
    buttonsArrOf, hoistFieldsFrom, hoistButtonsFrom, hoistField, hoistButton,
    passwordTypeTest, canonType, spreadPairs, setPair, removeField, lookupField,
    propGet, optGet, jsOr, jsAndArr, truthy, isArr, typeofObject, jsStringOf, lowerStr,
    lowerChar, strContainsPassword, containsChars, startsWithChars, Bind.bind, Except.bind,
    Except.map]
  decide

/-- The specification's form-hoisting example component. -/
def specHoistForm : JVal :=
  jobj [("type", jstr "Form"),
        ("props", jobj [("fields", jarr [jobj [("type", jstr "password")]]),
                        ("buttons", jarr [jobj [("type", jstr "Button")]])])]

/-- The converted output of specHoistForm. -/
def specHoistFormOut : JVal :=
  jobj [("type", jstr "Form"), ("props", jobj []),
        ("children", jarr [
          jobj [("id", jstr "field-0"), ("type", jstr "PasswordInput"),
                ("props", jobj [("secure", jbool true)]), ("children", jarr [])],
          jobj [("id", jstr "btn-0"), ("type", jstr "Button"),
                ("props", jobj []), ("children", jarr [])]])]

theorem convert_form_hoisting_witness :
    ∃ cs, objLookup specHoistFormOut "children" = some (jarr cs) ∧
      cs.length = (fieldsArrOf (propsPairsOf specHoistForm)).length +
        (buttonsArrOf (propsPairsOf specHoistForm)).length ∧
      (∀ i f, nget (fieldsArrOf (propsPairsOf specHoistForm)) i = some f →
        ∃ o, nget cs i = some o ∧
          objLookup o "id" = some (jsOr (optGet f "id") (jstr ("field-" ++ toString i))) ∧
          objLookup o "type" = some (canonType (jsOr (optGet f "type") (jstr "TextInput"))) ∧
          (passwordTypeTest f = true →
            ∃ P, objLookup o "props" = some (jobj P) ∧
              lookupField P "secure" = some (jbool true))) ∧
      (∀ j b, nget (buttonsArrOf (propsPairsOf specHoistForm)) j = some b →
        ∃ o, nget cs ((fieldsArrOf (propsPairsOf specHoistForm)).length + j) = some o ∧
          objLookup o "id" = some (jsOr (optGet b "id") (jstr ("btn-" ++ toString j))) ∧
          objLookup o "type" = some (canonType (jsOr (optGet b "type") (jstr "Button")))) ∧
      (∃ P, objLookup specHoistFormOut "props" = some (jobj P) ∧
        lookupField P "fields" = none ∧ lookupField P "buttons" = none) :=
  convert_form_hoisting (by decide)
    (by simp [specHoistForm, formCheckOf, normalizedOf, spreadPairs, setPair, propGet,
      lookupField, jsOr, truthy, canonType, jsStringOf, lowerStr, lowerChar])
    (by
    simp [specHoistForm, specHoistFormOut, convertComp, convertElems,
      convertBackendToFrontend, formCheckOf, normalizedOf, propsPairsOf, seedChildrenOf,
      hoistedOf, fieldsArrOf, buttonsArrOf, hoistFieldsFrom, hoistButtonsFrom, hoistField,
      hoistButton, passwordTypeTest, canonType, spreadPairs, setPair, removeField,
      lookupField, propGet, optGet, jsOr, jsAndArr, truthy, isArr, typeofObject,
      jsStringOf, lowerStr, lowerChar, strContainsPassword, containsChars,
      startsWithChars, Bind.bind, Except.bind, Except.map]
    decide)

/-- The children source exactly as the specification words it:
props.children if it is an array, otherwise props.items if it is an
array, otherwise the top-level children attribute already on the node,
otherwise empty. -/
def claimedChildrenSource (c : JVal) : JVal :=
  if isArr (propGet (propsPairsOf c) "children") then propGet (propsPairsOf c) "children"
  else if isArr (propGet (propsPairsOf c) "items") then propGet (propsPairsOf c) "items"
  else if truthy (propGet (normalizedOf c) "children") then propGet (normalizedOf c) "children"
  else jarr []

theorem truthy_of_isArr {v : JVal} (h : isArr v = true) : truthy v = true := by
  cases v <;> simp_all [isArr, truthy]

/-- The specification wording of the children-source precedence agrees
with the code expression Array.isArray(children) and children or
Array.isArray(items) and items or comp.children or []. -/
theorem claimedChildrenSource_eq (c : JVal) : claimedChildrenSource c = seedChildrenOf c := by
  rw [claimedChildrenSource, seedChildrenOf]
  by_cases hA : isArr (propGet (propsPairsOf c) "children") = true
  · rw [if_pos hA, jsAndArr, if_pos hA, jsOr_of_truthy _ (truthy_of_isArr hA)]
  · rw [if_neg hA, jsAndArr, if_neg hA, @jsOr_of_falsy (jbool false) _ rfl]
    by_cases hB : isArr (propGet (propsPairsOf c) "items") = true
    · rw [if_pos hB, jsAndArr, if_pos hB, jsOr_of_truthy _ (truthy_of_isArr hB)]
    · rw [if_neg hB, jsAndArr, if_neg hB, @jsOr_of_falsy (jbool false) _ rfl]
      by_cases hC : truthy (propGet (normalizedOf c) "children") = true
      · rw [if_pos hC, jsOr_of_truthy _ hC]
      · have hC2 : truthy (propGet (normalizedOf c) "children") = false := by
          rw [Bool.not_eq_true] at hC
          exact hC
        rw [if_neg hC, jsOr_of_falsy _ hC2]

/-- C6: children-source precedence.  The specification wording of the
precedence (props.children if an array, else props.items if an array,
else the top-level children attribute, else empty) agrees with the code
for every component; a NON-form component that converts successfully
takes its converted children from exactly that one source; but a FORM
component ignores the precedence entirely: its children are the
converted hoisted fields/buttons list. -/
theorem convert_children_precedence {c out : JVal}
    (hobj : ¬(truthy c = false ∨ typeofObject c = false))
    (hok : convertComp c = Except.ok out) :
    claimedChildrenSource c = seedChildrenOf c ∧
    (formCheckOf c = Except.ok false →
      ∃ ch, convertBackendToFrontend (claimedChildrenSource c) = Except.ok ch ∧
        objLookup out "children" = some ch) ∧
    (formCheckOf c = Except.ok true →
      ∃ cs, convertElems (hoistedOf c) = Except.ok cs ∧
        objLookup out "children" = some (jarr cs)) := by
  refine ⟨claimedChildrenSource_eq c, ?_, ?_⟩
  · intro hnf
    rcases convertComp_ok_cases hobj hok with ⟨hff, cs, hcs, hout⟩ | ⟨hff, ch, hch, hout⟩
    · have h3 : Except.ok (ε := String) false = Except.ok true := hnf.symm.trans hff
      simp at h3
    · subst hout
      refine ⟨ch, ?_, ?_⟩
      · rw [claimedChildrenSource_eq]
        exact hch
      · simp only [objLookup]
        exact outShape_children _ _ _
  · intro hf
    rcases convertComp_ok_cases hobj hok with ⟨hff, cs, hcs, hout⟩ | ⟨hff, ch, hch, hout⟩
    · subst hout
      refine ⟨cs, hcs, ?_⟩
      simp only [objLookup]
      exact outShape_children _ _ _
    · have h3 : Except.ok (ε := String) true = Except.ok false := hf.symm.trans hff
      simp at h3

/-- A form carrying BOTH an array props.children and props.fields: the
claimed precedence says props.children wins. -/
def formPrecCex : JVal :=
  jobj [("type", jstr "form"),
        ("props", jobj [("children", jarr [jobj [("type", jstr "Text")]]),
                        ("fields", jarr [jobj []])])]

/-- C6 counterexample: on a form node the child list does not come from
the claimed precedence chain at all.  formPrecCex has an array
props.children (highest claimed precedence), yet its converted children
are the hoisted fields list (a synthesized TextInput), not the
conversion of props.children (a Text node). -/
theorem convert_children_precedence_cex :
    isArr (propGet (propsPairsOf formPrecCex) "children") = true ∧
    convertComp formPrecCex = Except.ok (jobj [("type", jstr "form"), ("props", jobj []),
      ("children", jarr [jobj [("id", jstr "field-0"), ("type", jstr "TextInput"),
        ("props", jobj []), ("children", jarr [])]])]) ∧
    convertBackendToFrontend (propGet (propsPairsOf formPrecCex) "children") =
      Except.ok (jarr [jobj [("type", jstr "Text"), ("children", jarr []),
        ("props", jobj [])]]) ∧
    jarr [jobj [("id", jstr "field-0"), ("type", jstr "TextInput"),
        ("props", jobj []), ("children", jarr [])]] ≠
      jarr [jobj [("type", jstr "Text"), ("children", jarr []), ("props", jobj [])]] := by
  refine ⟨by decide, ?_, ?_, by simp⟩
  · simp [formPrecCex, convertComp, convertElems, convertBackendToFrontend,
      formCheckOf, normalizedOf, propsPairsOf, seedChildrenOf, hoistedOf, fieldsArrOf,
      buttonsArrOf, hoistFieldsFrom, hoistButtonsFrom, hoistField, hoistButton,
      passwordTypeTest, canonType, spreadPairs, setPair, removeField, lookupField,
      propGet, optGet, jsOr, jsAndArr, truthy, isArr, typeofObject, jsStringOf, lowerStr,
      lowerChar, strContainsPassword, containsChars, startsWithChars, Bind.bind,
      Except.bind, Except.map]
    decide
  · simp [formPrecCex, convertComp, convertElems, convertBackendToFrontend,
      formCheckOf, normalizedOf, propsPairsOf, seedChildrenOf, hoistedOf, fieldsArrOf,
      buttonsArrOf, hoistFieldsFrom, hoistButtonsFrom, hoistField, hoistButton,
      passwordTypeTest, canonType, spreadPairs, setPair, removeField, lookupField,
      propGet, optGet, jsOr, jsAndArr, truthy, isArr, typeofObject, jsStringOf, lowerStr,
      lowerChar, strContainsPassword, containsChars, startsWithChars, Bind.bind,
      Except.bind, Except.map]

/-- A non-form component with an array props.items (and a non-array
top-level children attribute that the precedence must ignore). -/
def precWitnessComp : JVal :=
  jobj [("type", jstr "Card"),
        ("props", jobj [("items", jarr [jobj [("type", jstr "Text")]])]),
        ("children", jstr "ignored")]

/-- The converted output of precWitnessComp. -/
def precWitnessOut : JVal :=
  jobj [("type", jstr "Card"), ("props", jobj []),
        ("children", jarr [jobj [("type", jstr "Text"), ("children", jarr []),
          ("props", jobj [])]])]

theorem convert_children_precedence_witness :
    claimedChildrenSource precWitnessComp = seedChildrenOf precWitnessComp ∧
    (formCheckOf precWitnessComp = Except.ok false →
      ∃ ch, convertBackendToFrontend (claimedChildrenSource precWitnessComp) = Except.ok ch ∧
        objLookup precWitnessOut "children" = some ch) ∧
    (formCheckOf precWitnessComp = Except.ok true →
      ∃ cs, convertElems (hoistedOf precWitnessComp) = Except.ok cs ∧
        objLookup precWitnessOut "children" = some (jarr cs)) :=
  convert_children_precedence (by decide) (by
    simp [precWitnessComp, precWitnessOut, convertComp, convertElems,
      convertBackendToFrontend, formCheckOf, normalizedOf, propsPairsOf, seedChildrenOf,
      hoistedOf, fieldsArrOf, buttonsArrOf, hoistFieldsFrom, hoistButtonsFrom, hoistField,
      hoistButton, passwordTypeTest, canonType, spreadPairs, setPair, removeField,
      lookupField, propGet, optGet, jsOr, jsAndArr, truthy, isArr, typeofObject,
      jsStringOf, lowerStr, lowerChar, strContainsPassword, containsChars,
      startsWithChars, Bind.bind, Except.bind, Except.map])

/-- Membership in the converted node tree hanging off a children-array
value: direct elements, and recursively the elements of any element's
children array. -/
inductive MemTree : JVal → JVal → Prop where
  | head {cs : List JVal} {n : JVal} (h : n ∈ cs) : MemTree (jarr cs) n
  | deeper {cs : List JVal} {l : List (String × JVal)} {m n : JVal}
      (h : jobj l ∈ cs) (hc : lookupField l "children" = some m)
      (h2 : MemTree m n) : MemTree (jarr cs) n

/-- The converter's form test read off an emitted type value. -/
def isFormTag : JVal → Bool
  | jstr s => lowerStr s == "form"
  | _ => false

theorem propGet_congr {l1 l2 : List (String × JVal)} {k : String}
    (h : lookupField l1 k = lookupField l2 k) : propGet l1 k = propGet l2 k := by
  rw [propGet, propGet, h]

theorem convertElems_mem : ∀ {l cs : List JVal}, convertElems l = Except.ok cs →
    ∀ {n : JVal}, n ∈ cs → ∃ e, e ∈ l ∧ convertComp e = Except.ok n := by
  intro l
  induction l with
  | nil =>
      intro cs h n hn
      rw [convertElems] at h
      cases h
      simp at hn
  | cons c rest ih =>
      intro cs h n hn
      rw [convertElems] at h
      obtain ⟨o, ho, h2⟩ := bind_ok_elim h
      obtain ⟨os, hos, h3⟩ := bind_ok_elim h2
      cases h3
      rcases List.mem_cons.mp hn with hh | ht
      · exact ⟨c, List.mem_cons_self c rest, by rw [hh]; exact ho⟩
      · obtain ⟨e, he, hc2⟩ := ih hos ht
        exact ⟨e, List.mem_cons_of_mem c he, hc2⟩

theorem convertBTF_elemsOut {v out : JVal}
    (h : convertBackendToFrontend v = Except.ok out) :
    ∃ l cs, out = jarr cs ∧ convertElems l = Except.ok cs := by
  cases v with
  | jarr l =>
      rw [convertBackendToFrontend] at h
      cases he : convertElems l with
      | ok cs =>
          rw [he] at h
          simp only [Except.map] at h
          cases h
          exact ⟨l, cs, rfl, he⟩
      | error e =>
          rw [he] at h
          simp [Except.map] at h
  | jnull => simp only [convertBackendToFrontend] at h; cases h; exact ⟨[], [], rfl, by rw [convertElems]⟩
  | jundef => simp only [convertBackendToFrontend] at h; cases h; exact ⟨[], [], rfl, by rw [convertElems]⟩
  | jbool b => simp only [convertBackendToFrontend] at h; cases h; exact ⟨[], [], rfl, by rw [convertElems]⟩
  | jnum n => simp only [convertBackendToFrontend] at h; cases h; exact ⟨[], [], rfl, by rw [convertElems]⟩
  | jstr s => simp only [convertBackendToFrontend] at h; cases h; exact ⟨[], [], rfl, by rw [convertElems]⟩
  | jobj l => simp only [convertBackendToFrontend] at h; cases h; exact ⟨[], [], rfl, by rw [convertElems]⟩

/-- A component whose form check came back false cannot emit a
form-lowercasing type: the emitted type is exactly the value the form
check consulted. -/
theorem isFormTag_of_formCheck_false {c : JVal}
    (h : formCheckOf c = Except.ok false) :
    isFormTag (propGet (normalizedOf c) "type") = false := by
  rw [formCheckOf] at h
  cases hJ : jsOr (propGet (normalizedOf c) "type") (jstr "") with
  | jstr s =>
      rw [hJ] at h
      simp only [Except.ok.injEq] at h
      by_cases htr : truthy (propGet (normalizedOf c) "type") = true
      · have hT : propGet (normalizedOf c) "type" = jstr s := by
          rw [jsOr_of_truthy _ htr] at hJ
          exact hJ
        rw [hT, isFormTag]
        exact h
      · have htr2 : truthy (propGet (normalizedOf c) "type") = false := by
          rw [Bool.not_eq_true] at htr
          exact htr
        cases hT : propGet (normalizedOf c) "type" with
        | jstr s2 =>
            rw [hT] at htr2
            have hs2 : s2 = "" := by simpa [truthy] using htr2
            rw [isFormTag, hs2]
            decide
        | jnull => rfl
        | jundef => rfl
        | jbool b => rfl
        | jnum n => rfl
        | jarr a => rfl
        | jobj o => rfl
  | jnull => rw [hJ] at h; simp at h
  | jundef => rw [hJ] at h; simp at h
  | jbool b => rw [hJ] at h; simp at h
  | jnum n => rw [hJ] at h; simp at h
  | jarr a => rw [hJ] at h; simp at h
  | jobj o => rw [hJ] at h; simp at h

/-- Structure of a successful conversion that emitted an object: it has
a children array that is itself an elementwise-conversion output, and a
props object free of children/items, and free of fields/buttons
whenever the emitted type is form-tagged. -/
theorem convertComp_out_obj {e : JVal} {L : List (String × JVal)}
    (h : convertComp e = Except.ok (jobj L)) :
    ∃ CH CP, lookupField L "children" = some CH ∧ lookupField L "props" = some (jobj CP) ∧
      (∃ l2 cs2, CH = jarr cs2 ∧ convertElems l2 = Except.ok cs2) ∧
      lookupField CP "children" = none ∧ lookupField CP "items" = none ∧
      (isFormTag (propGet L "type") = true →
        lookupField CP "fields" = none ∧ lookupField CP "buttons" = none) := by
  by_cases hc : truthy e = false ∨ typeofObject e = false
  · rw [convertComp, dif_pos hc] at h
    cases h
    rcases hc with h2 | h2 <;> simp [truthy, typeofObject] at h2
  · rcases convertComp_ok_cases hc h with ⟨hff, cs, hcs, hout⟩ | ⟨hff, ch, hch, hout⟩
    · injection hout with hL
      subst hL
      refine ⟨jarr cs, _, outShape_children _ _ _, outShape_props _ _ _,
        ⟨hoistedOf e, cs, rfl, hcs⟩, ?_, ?_, fun _ => ⟨?_, ?_⟩⟩
      · rw [lookup_removeField_ne _ _ _ (by decide)]
        exact lookup_removeField_self _ _
      · exact lookup_removeField_self _ _
      · rw [lookup_removeField_ne _ _ _ (by decide), lookup_removeField_ne _ _ _ (by decide),
            lookup_removeField_ne _ _ _ (by decide)]
        exact lookup_removeField_self _ _
      · rw [lookup_removeField_ne _ _ _ (by decide), lookup_removeField_ne _ _ _ (by decide)]
        exact lookup_removeField_self _ _
    · injection hout with hL
      subst hL
      obtain ⟨l2, cs2, hch2, hconv2⟩ := convertBTF_elemsOut hch
      refine ⟨ch, _, outShape_children _ _ _, outShape_props _ _ _,
        ⟨l2, cs2, hch2, hconv2⟩, ?_, ?_, ?_⟩
      · rw [lookup_removeField_ne _ _ _ (by decide)]
        exact lookup_removeField_self _ _
      · exact lookup_removeField_self _ _
      · intro hform
        have hpg : propGet (setPair (setPair (normalizedOf e) "children" ch) "props"
            (jobj (removeField (removeField (propsPairsOf e) "children") "items"))) "type"
            = propGet (normalizedOf e) "type" :=
          propGet_congr (outShape_other _ _ _ _ (by decide) (by decide))
        rw [hpg, isFormTag_of_formCheck_false hff] at hform
        cases hform

/-- Every object node of a converted children tree has props free of
children/items, and free of fields/buttons when its emitted type is
form-tagged. -/
theorem memTree_clean : ∀ {A n : JVal}, MemTree A n →
    (∃ l cs, A = jarr cs ∧ convertElems l = Except.ok cs) →
    ∀ L, n = jobj L → ∀ P, lookupField L "props" = some (jobj P) →
      lookupField P "children" = none ∧ lookupField P "items" = none ∧
      (isFormTag (propGet L "type") = true →
        lookupField P "fields" = none ∧ lookupField P "buttons" = none) := by
  intro A n hmem
  induction hmem with
  | head h =>
      intro hA L hn P hP
      obtain ⟨l, cs2, heq, hconv⟩ := hA
      injection heq with hcs
      subst hcs
      subst hn
      obtain ⟨e, he, hcomp⟩ := convertElems_mem hconv h
      obtain ⟨CH, CP, hch, hpl, _, h1, h2, h3⟩ := convertComp_out_obj hcomp
      rw [hP] at hpl
      injection hpl with hp2
      injection hp2 with hp3
      subst hp3
      exact ⟨h1, h2, h3⟩
  | deeper h hc h2 ih =>
      intro hA L hn P hP
      obtain ⟨l, cs2, heq, hconv⟩ := hA
      injection heq with hcs
      subst hcs
      obtain ⟨e, he, hcomp⟩ := convertElems_mem hconv h
      obtain ⟨CH, CP, hch, _, hElems, _, _, _⟩ := convertComp_out_obj hcomp
      rw [hc] at hch
      injection hch with hm
      refine ih ?_ L hn P hP
      rw [hm]
      exact hElems

/-- C5: structural keys in converted props.  For every object node
reachable anywhere in a successful conversion output (at any depth,
hoisted children included), the node's props object contains neither
children nor items; but fields and buttons are guaranteed absent only
when the node's emitted type is form-tagged — a non-form node's props
may retain them. -/
theorem convert_props_stripped {v out : JVal} {L P : List (String × JVal)}
    (hok : convertBackendToFrontend v = Except.ok out)
    (hmem : MemTree out (jobj L))
    (hP : lookupField L "props" = some (jobj P)) :
    lookupField P "children" = none ∧ lookupField P "items" = none ∧
    (isFormTag (propGet L "type") = true →
      lookupField P "fields" = none ∧ lookupField P "buttons" = none) :=
  memTree_clean hmem (convertBTF_elemsOut hok) L rfl P hP

/-- A non-form component carrying a structural props.fields key. -/
def stripCexComp : JVal :=
  jobj [("type", jstr "Card"), ("props", jobj [("fields", jnum 5)])]

/-- C5 counterexample: converting a non-form node does NOT strip fields
(or buttons) from its props — the emitted Card keeps props.fields, so
the structural keys are not removed unconditionally as claimed. -/
theorem convert_props_stripped_cex :
    convertBackendToFrontend (jarr [stripCexComp]) =
      Except.ok (jarr [jobj [("type", jstr "Card"),
        ("props", jobj [("fields", jnum 5)]), ("children", jarr [])]]) ∧
    lookupField [("fields", jnum 5)] "fields" = some (jnum 5) := by
  refine ⟨?_, rfl⟩
  simp [stripCexComp, convertComp, convertElems, convertBackendToFrontend,
    formCheckOf, normalizedOf, propsPairsOf, seedChildrenOf, hoistedOf, fieldsArrOf,
    buttonsArrOf, hoistFieldsFrom, hoistButtonsFrom, hoistField, hoistButton,
    passwordTypeTest, canonType, spreadPairs, setPair, removeField, lookupField,
    propGet, optGet, jsOr, jsAndArr, truthy, isArr, typeofObject, jsStringOf, lowerStr,
    lowerChar, strContainsPassword, containsChars, startsWithChars, Bind.bind,
    Except.bind, Except.map]

/-- A form component with a props.fields entry and an extra props key. -/
def stripWitnessComp : JVal :=
  jobj [("type", jstr "form"),
        ("props", jobj [("fields", jarr [jobj []]), ("title", jstr "t")])]

theorem convert_props_stripped_witness :
    lookupField [("title", jstr "t")] "children" = none ∧
    lookupField [("title", jstr "t")] "items" = none ∧
    (isFormTag (propGet [("type", jstr "form"),
        ("props", jobj [("title", jstr "t")]),
        ("children", jarr [jobj [("id", jstr "field-0"), ("type", jstr "TextInput"),
          ("props", jobj []), ("children", jarr [])]])] "type") = true →
      lookupField [("title", jstr "t")] "fields" = none ∧
      lookupField [("title", jstr "t")] "buttons" = none) :=
  @convert_props_stripped (jarr [stripWitnessComp])
    (jarr [jobj [("type", jstr "form"), ("props", jobj [("title", jstr "t")]),
      ("children", jarr [jobj [("id", jstr "field-0"), ("type", jstr "TextInput"),
        ("props", jobj []), ("children", jarr [])]])]])
    [("type", jstr "form"), ("props", jobj [("title", jstr "t")]),
      ("children", jarr [jobj [("id", jstr "field-0"), ("type", jstr "TextInput"),
        ("props", jobj []), ("children", jarr [])]])]
    [("title", jstr "t")]
    (by
      simp [stripWitnessComp, convertComp, convertElems, convertBackendToFrontend,
        formCheckOf, normalizedOf, propsPairsOf, seedChildrenOf, hoistedOf, fieldsArrOf,
        buttonsArrOf, hoistFieldsFrom, hoistButtonsFrom, hoistField, hoistButton,
        passwordTypeTest, canonType, spreadPairs, setPair, removeField, lookupField,
        propGet, optGet, jsOr, jsAndArr, truthy, isArr, typeofObject, jsStringOf, lowerStr,
        lowerChar, strContainsPassword, containsChars, startsWithChars, Bind.bind,
        Except.bind, Except.map]
      decide)
    (MemTree.head (by simp)) rfl

/-- C4 counterexample: the present (not absent) falsy input 0 yields
null rather than a repaired document, and the present malformed input
with a truthy non-array screens value makes the normalizer throw a
TypeError (screens.map is not a function) instead of repairing it. -/
theorem ensureLayoutShape_totality_cex :
    ensureLayoutShape (jnum 0) = Except.ok jnull ∧
    (ensureLayoutShape (jobj [("screens", jnum 5)])).isOk = false := ⟨rfl, rfl⟩

/-! ## normalizeBackendLayout of src/utils/parseLayout.js -/

/-- The property names every plain object literal inherits from
Object.prototype: bracket lookup on a plain object walks the prototype
chain, so a miss on the own keys still yields a truthy value (a native
function, or the prototype object for the proto accessor) at exactly
these names. -/
def objectProtoKeys : List String :=
  ["constructor", "hasOwnProperty", "isPrototypeOf", "propertyIsEnumerable",
   "toLocaleString", "toString", "valueOf",
   "__defineGetter__", "__defineSetter__", "__lookupGetter__", "__lookupSetter__",
   "__proto__"]

/-- A default parameter value: substituted exactly when the argument is
undefined (not for null or other falsy arguments). -/
def jsDefault (v d : JVal) : JVal := if v = jundef then d else v

/-- resolveComponent: falsy components resolve to null; a component
whose id hits an own key of the catalog is replaced wholesale by the
catalog entry; an own-key miss at an inherited Object.prototype name
makes compMap[component.id] a truthy native member in JavaScript — that
corner is outside the modelled object fragment and is marked as an
explicit error; otherwise a spread copy with id defaulted to the
fallback id. -/
def resolveComponent (component : JVal) (compMap : List (String × JVal))
    (fallbackId : String) : Except String JVal :=
  if truthy component = false then .ok jnull
  else
    match lookupField compMap (jsStringOf (optGet component "id")) with
    | some v =>
        if truthy (optGet component "id") && truthy v then .ok v
        else .ok (jobj (setPair (spreadPairs component) "id"
          (jsOr (optGet component "id") (jstr fallbackId))))
    | none =>
        if truthy (optGet component "id") &&
            objectProtoKeys.contains (jsStringOf (optGet component "id")) then
          .error "unmodelled: compMap[component.id] hits an inherited Object.prototype member"
        else .ok (jobj (setPair (spreadPairs component) "id"
          (jsOr (optGet component "id") (jstr fallbackId))))

/-- The id-keyed catalog built from the intermediate component list
(object keys are String()-coerced).  An id stringifying to __proto__
would make acc[id] = c a prototype mutation rather than an own-key
write; that corner is outside the modelled object fragment and is
marked as an explicit error. -/
def compMapOf : List (String × JVal) → List JVal → Except String (List (String × JVal))
  | acc, [] => .ok acc
  | acc, c :: rest =>
      if truthy (optGet c "id") then
        if jsStringOf (optGet c "id") = "__proto__" then
          .error "unmodelled: a __proto__ catalog id mutates the accumulator prototype"
        else compMapOf (setPair acc (jsStringOf (optGet c "id")) c) rest
      else compMapOf acc rest

/-- The three deterministic fallback blocks: a HeroSection, a Grid with
three FeatureCard children, and a Footer, ids templated on the screen
name. -/
def fallbackComponents (sn : String) : List JVal :=
  [jobj [("id", jstr ("hero-" ++ sn)), ("type", jstr "HeroSection"),
         ("props", jobj [("title", jstr "Welcome"), ("subtitle", jstr "Your hero section")]),
         ("children", jarr [])],
   jobj [("id", jstr ("features-" ++ sn)), ("type", jstr "Grid"),
         ("props", jobj [("columns", jnum 3)]),
         ("children", jarr [
           jobj [("id", jstr ("feature-1-" ++ sn)), ("type", jstr "FeatureCard"),
                 ("props", jobj [("title", jstr "Feature 1")])],
           jobj [("id", jstr ("feature-2-" ++ sn)), ("type", jstr "FeatureCard"),
                 ("props", jobj [("title", jstr "Feature 2")])],
           jobj [("id", jstr ("feature-3-" ++ sn)), ("type", jstr "FeatureCard"),
                 ("props", jobj [("title", jstr "Feature 3")])]])],
   jobj [("id", jstr ("footer-" ++ sn)), ("type", jstr "Footer"),
         ("props", jobj [("text", jstr "© 2025 Your Company")]),
         ("children", jarr [])]]

/-- The screen name: the screen itself when it is a string, else
s.name, else s.title, else Screen {si+1}; member access throws on a
null/undefined screen entry. -/
def screenNameOf (si : Nat) (s : JVal) : Except String JVal :=
  match s with
  | jstr _ => .ok s
  | _ =>
      jsGetOrThrow s "name" >>= fun n =>
      if truthy n then .ok n
      else jsGetOrThrow s "title" >>= fun t =>
        .ok (jsOr t (jstr ("Screen " ++ toString (si + 1))))

/-- The raw component source of a screen: s.components, else s.content,
else s.items, else the empty array, for object-typed screens (typeof
null is object, so a null entry throws); non-objects contribute the
empty array. -/
def compsRawOf (s : JVal) : Except String JVal :=
  if typeofObject s then
    jsGetOrThrow s "components" >>= fun c =>
    if truthy c then .ok c
    else jsGetOrThrow s "content" >>= fun c2 =>
    if truthy c2 then .ok c2
    else jsGetOrThrow s "items" >>= fun c3 =>
    .ok (jsOr c3 (jarr []))
  else .ok (jarr [])

/-- The indexed resolveComponent map over a raw component list. -/
def resolveList (compMap : List (String × JVal)) (si : Nat) : Nat → List JVal →
    Except String (List JVal)
  | _, [] => .ok []
  | i, c :: rest =>
      resolveComponent c compMap ("s" ++ toString si ++ "-c" ++ toString i) >>= fun r =>
      resolveList compMap si (i + 1) rest >>= fun rs => .ok (r :: rs)

/-- The resolved (and, when empty, fallback-substituted) component list
of one screen; calling .map on a truthy non-array component source
throws. -/
def screenComponents (compMap : List (String × JVal)) (si : Nat) (s sname : JVal) :
    Except String (List JVal) :=
  compsRawOf s >>= fun cr =>
  match cr with
  | jarr l =>
      resolveList compMap si 0 l >>= fun rl =>
      .ok (if (rl.filter (fun c => truthy c)).length = 0
           then fallbackComponents (jsStringOf sname)
           else rl.filter (fun c => truthy c))
  | _ => .error "TypeError: compsRaw.map is not a function"

/-- The layout_type of an emitted page: s.layout_type or sectioned for
object screens, sectioned otherwise. -/
def layoutTypeOf (s : JVal) : Except String JVal :=
  if typeofObject s then
    jsGetOrThrow s "layout_type" >>= fun lt => .ok (jsOr lt (jstr "sectioned"))
  else .ok (jstr "sectioned")

/-- One emitted page of the per-screen branch: name, layout_type and a
single Main section holding the converted component list. -/
def screenPage (compMap : List (String × JVal)) (si : Nat) (s : JVal) :
    Except String JVal :=
  screenNameOf si s >>= fun sname =>
  screenComponents compMap si s sname >>= fun comps =>
  convertBackendToFrontend (jarr comps) >>= fun fc =>
  layoutTypeOf s >>= fun lt =>
  .ok (jobj [("name", sname), ("layout_type", lt),
    ("sections", jarr [jobj [("name", jstr "Main"), ("components", fc)]])])

def screenPages (compMap : List (String × JVal)) : Nat → List JVal → Except String (List JVal)
  | _, [] => .ok []
  | si, s :: rest =>
      screenPage compMap si s >>= fun p =>
      screenPages compMap (si + 1) rest >>= fun ps => .ok (p :: ps)

/-- The screens actually iterated: raw.pages when it is a nonempty
array, else the empty list.  (The source text also mentions raw.screens
in an or-expression, but its left operand — a nonempty pages array or
the literal [] — is always truthy in JavaScript, so the screens operand
is dead code and legacy screens never reach this function's loop.) -/
def screensOf (raw : JVal) : List JVal :=
  match optGet raw "pages" with
  | jarr ps => if ps.length = 0 then [] else ps
  | _ => []

/-- The single fallback page of the empty-screens branch; note its
components are the raw fallback blocks, NOT passed through
convertBackendToFrontend. -/
def fallbackPage (raw : JVal) : JVal :=
  jobj [("name", jsOr (optGet raw "name") (jstr "Screen")),
        ("layout_type", jsOr (optGet raw "layout_type") (jstr "sectioned")),
        ("sections", jarr [jobj [("name", jstr "Main"),
          ("components", jarr (fallbackComponents "default"))]])]

/-- The returned document: pages plus tokens/theme fallbacks. -/
def resultDoc (raw : JVal) (ps : List JVal) : JVal :=
  jobj [("pages", jarr ps),
        ("tokens", jsOr (optGet raw "tokens") (jobj [])),
        ("theme", jsOr (optGet raw "theme") (jobj []))]

/-- The body of normalizeBackendLayout after parameter binding: falsy
input returns the bare empty document; otherwise the input is unwrapped
one layout level, the intermediate catalog is built (throwing if
intermediate.components is truthy but not an array), and either the
single fallback page (no nonempty pages array) or the per-screen pages
are emitted. -/
def normalizeBackendLayoutWith (rawLayout intermediate : JVal) : Except String JVal :=
  if truthy rawLayout = false then .ok (jobj [("pages", jarr [])])
  else
    match jsOr (optGet intermediate "components") (jarr []) with
    | jarr l =>
        compMapOf [] (l.filter (fun c => truthy c)) >>= fun compMap =>
        if (screensOf (unwrapLayout rawLayout)).length = 0 then
          .ok (resultDoc (unwrapLayout rawLayout) [fallbackPage (unwrapLayout rawLayout)])
        else
          screenPages compMap 0 (screensOf (unwrapLayout rawLayout)) >>= fun ps =>
            .ok (resultDoc (unwrapLayout rawLayout) ps)
    | _ => .error "TypeError: (intermediate.components or []).filter is not a function"

/-- normalizeBackendLayout of src/utils/parseLayout.js, with the
source's default parameters rawLayout = {} and intermediate = {}: an
undefined argument binds the empty object (which is truthy, so a
missing rawLayout gets the fallback page, not the empty document). -/
def normalizeBackendLayout (rawLayout intermediate : JVal) : Except String JVal :=
  normalizeBackendLayoutWith (jsDefault rawLayout (jobj []))
    (jsDefault intermediate (jobj []))

/-- C10 (amended): for input binding to a truthy value after the
rawLayout = {} default (so also for a missing/undefined argument), with
a safe intermediate catalog and no nonempty pages array, the normalizer
emits exactly one page whose single Main section holds exactly the
three raw fallback blocks — a HeroSection, a Grid with three
FeatureCard children, and a Footer — so a parsed-but-empty input is
indistinguishable from one requesting that placeholder content; a
provided falsy input (null, 0, the empty string, false, NaN), however,
yields the empty document. -/
theorem normalizeBackendLayout_fallback (rawLayout intermediate : JVal)
    (L : List JVal) (M : List (String × JVal))
    (ht : truthy (jsDefault rawLayout (jobj [])) = true)
    (hI : jsOr (optGet (jsDefault intermediate (jobj [])) "components") (jarr []) = jarr L)
    (hM : compMapOf [] (L.filter (fun c => truthy c)) = Except.ok M)
    (hS : (screensOf (unwrapLayout (jsDefault rawLayout (jobj [])))).length = 0) :
    normalizeBackendLayout rawLayout intermediate =
      .ok (resultDoc (unwrapLayout (jsDefault rawLayout (jobj [])))
        [fallbackPage (unwrapLayout (jsDefault rawLayout (jobj [])))]) ∧
    objLookup (fallbackPage (unwrapLayout (jsDefault rawLayout (jobj [])))) "sections" =
      some (jarr [jobj [("name", jstr "Main"),
        ("components", jarr (fallbackComponents "default"))]]) ∧
    (fallbackComponents "default").map (fun c => objLookup c "type") =
      [some (jstr "HeroSection"), some (jstr "Grid"), some (jstr "Footer")] ∧
    (∃ g, nget (fallbackComponents "default") 1 = some g ∧
      ∃ gcs, objLookup g "children" = some (jarr gcs) ∧
        gcs.map (fun c => objLookup c "type") =
          [some (jstr "FeatureCard"), some (jstr "FeatureCard"),
           some (jstr "FeatureCard")]) := by
  refine ⟨?_, rfl, rfl, ⟨_, rfl, _, rfl, rfl⟩⟩
  rw [normalizeBackendLayout, normalizeBackendLayoutWith, if_neg (by simp [ht]), hI]
  simp only [hM, ok_bind]
  simp [hS]

/-- C10 counterexample: a provided falsy input (null) produces the bare
empty document with zero pages — no fallback content at all — so the
normalizer can produce an empty document.  An undefined argument, by
contrast, binds the {} default parameter and receives the fallback
page.  (For comparison, a truthy input whose single screen has no
components gets the fallback trio, here passed through conversion.) -/
theorem normalizeBackendLayout_cex :
    normalizeBackendLayout jnull (jobj []) = .ok (jobj [("pages", jarr [])]) ∧
    objLookup (jobj [("pages", jarr [])]) "pages" = some (jarr []) ∧
    normalizeBackendLayout jundef (jobj []) =
      .ok (resultDoc (jobj []) [fallbackPage (jobj [])]) ∧
    normalizeBackendLayout (jobj [("pages", jarr [jobj [("name", jstr "A")]])]) (jobj []) =
      .ok (jobj [("pages", jarr [jobj [("name", jstr "A"),
        ("layout_type", jstr "sectioned"),
        ("sections", jarr [jobj [("name", jstr "Main"), ("components", jarr [
          jobj [("id", jstr "hero-A"), ("type", jstr "HeroSection"),
                ("props", jobj [("title", jstr "Welcome"),
                  ("subtitle", jstr "Your hero section")]),
                ("children", jarr [])],
          jobj [("id", jstr "features-A"), ("type", jstr "Grid"),
                ("props", jobj [("columns", jnum 3)]),
                ("children", jarr [
                  jobj [("id", jstr "feature-1-A"), ("type", jstr "FeatureCard"),
                        ("props", jobj [("title", jstr "Feature 1")]),
                        ("children", jarr [])],
                  jobj [("id", jstr "feature-2-A"), ("type", jstr "FeatureCard"),
                        ("props", jobj [("title", jstr "Feature 2")]),
                        ("children", jarr [])],
                  jobj [("id", jstr "feature-3-A"), ("type", jstr "FeatureCard"),
                        ("props", jobj [("title", jstr "Feature 3")]),
                        ("children", jarr [])]])],
          jobj [("id", jstr "footer-A"), ("type", jstr "Footer"),
                ("props", jobj [("text", jstr "© 2025 Your Company")]),
                ("children", jarr [])]])]])]]),
        ("tokens", jobj []), ("theme", jobj [])]) := by
  refine ⟨rfl, rfl, rfl, ?_⟩
  simp [normalizeBackendLayout, normalizeBackendLayoutWith, jsDefault, objectProtoKeys,
    screenPages, screenPage, screenNameOf, screenComponents,
    compsRawOf, layoutTypeOf, resolveList, resolveComponent, compMapOf, screensOf,
    fallbackPage, resultDoc, fallbackComponents, unwrapLayout, jsGetOrThrow,
    convertComp, convertElems, convertBackendToFrontend, formCheckOf, normalizedOf,
    propsPairsOf, seedChildrenOf, hoistedOf, fieldsArrOf, buttonsArrOf, hoistFieldsFrom,
    hoistButtonsFrom, hoistField, hoistButton, passwordTypeTest, canonType, spreadPairs,
    setPair, removeField, lookupField, propGet, optGet, jsOr, jsAndArr, truthy, isArr,
    typeofObject, jsStringOf, lowerStr, lowerChar, strContainsPassword, containsChars,
    startsWithChars, Bind.bind, Except.bind, Except.map]

theorem normalizeBackendLayout_fallback_witness :
    normalizeBackendLayout (jobj [("title", jstr "hello")]) (jobj []) =
      .ok (resultDoc (unwrapLayout (jsDefault (jobj [("title", jstr "hello")]) (jobj [])))
        [fallbackPage (unwrapLayout (jsDefault (jobj [("title", jstr "hello")]) (jobj [])))]) ∧
    objLookup (fallbackPage (unwrapLayout (jsDefault (jobj [("title", jstr "hello")])
      (jobj [])))) "sections" =
      some (jarr [jobj [("name", jstr "Main"),
        ("components", jarr (fallbackComponents "default"))]]) ∧
    (fallbackComponents "default").map (fun c => objLookup c "type") =
      [some (jstr "HeroSection"), some (jstr "Grid"), some (jstr "Footer")] ∧
    (∃ g, nget (fallbackComponents "default") 1 = some g ∧
      ∃ gcs, objLookup g "children" = some (jarr gcs) ∧
        gcs.map (fun c => objLookup c "type") =
          [some (jstr "FeatureCard"), some (jstr "FeatureCard"),
           some (jstr "FeatureCard")]) :=
  normalizeBackendLayout_fallback (jobj [("title", jstr "hello")]) (jobj []) [] []
    rfl rfl rfl (by decide)

/-! ## ComponentRendererLite of src/components/ComponentRendererLite.jsx -/

/-- The keys of COMPONENT_MAP. -/
def COMPONENT_KEYS : List String :=
  ["container", "card", "spacer", "grid", "stack",
   "header", "text", "richtext", "divider", "badge", "chip",
   "textinput", "passwordinput", "iconinput", "searchinput",
   "checkbox", "switch",
   "button", "gradientbutton", "socialbutton",
   "iconbutton", "floatingactionbutton",
   "linkbutton", "link",
   "image", "avatar", "illustrationheader", "herosection", "imagegallery",
   "statcard", "productcard", "quantitycontrol", "cartitem", "pricebreakdown",
   "progressbar", "appbar", "tabbar", "formsection",
   "list", "listitem", "cardlist", "rating", "alert", "emptystate",
   "form", "footer"]

/-- The renderer's child-source selection: props.children if an array,
else props.items if an array, else node.children if an array, else
empty. -/
def kidsOf (props0 : List (String × JVal)) (node : JVal) : List JVal :=
  match propGet props0 "children" with
  | jarr l => l
  | _ =>
    match propGet props0 "items" with
    | jarr l => l
    | _ =>
      match optGet node "children" with
      | jarr l => l
      | _ => []

/-- The renderer's form hoisting of one descriptor list: id f.id or
{pre}{i} (reading id throws on a null/undefined entry), type f.type or
the default, props a spread copy; no alias canonicalization and no
secure injection here. -/
def rFieldHoist (defTy pre : String) : Nat → List JVal → Except String (List JVal)
  | _, [] => .ok []
  | i, f :: rest =>
      jsGetOrThrow f "id" >>= fun fid =>
      rFieldHoist defTy pre (i + 1) rest >>= fun os =>
      .ok (jobj [("id", jsOr fid (jstr (pre ++ toString i))),
                 ("type", jsOr (optGet f "type") (jstr defTy)),
                 ("props", jobj (spreadPairs (jsOr (optGet f "props") (jobj []))))] :: os)

mutual
/-- normalizeNode of the renderer: falsy or non-object input normalizes
to null; otherwise a spread copy with cleaned props and recursively
normalized (null-filtered) children; a form node additionally replaces
props/children with the hoisted fields/buttons, throwing when
props.fields or props.buttons is truthy but not an array or contains a
null entry. -/
def normalizeNode : Nat → JVal → Except String (Option JVal)
  | 0, _ => .error "recursion limit exceeded"
  | fuel + 1, node =>
      if truthy node = false ∨ typeofObject node = false then .ok none
      else
        normalizeKids fuel
            (kidsOf (spreadPairs (jsOr (optGet node "props") (jobj []))) node) >>= fun kn =>
        if lowerStr (jsStringOf (jsOr (optGet node "type") (jstr ""))) = "form" then
          match jsOr (propGet (removeField (removeField
              (spreadPairs (jsOr (optGet node "props") (jobj []))) "children") "items")
              "fields") (jarr []) with
          | jarr F =>
              rFieldHoist "TextInput" "field-" 0 F >>= fun hf =>
              (match jsOr (propGet (removeField (removeField
                  (spreadPairs (jsOr (optGet node "props") (jobj []))) "children") "items")
                  "buttons") (jarr []) with
              | jarr B =>
                  rFieldHoist "Button" "btn-" 0 B >>= fun hb =>
                  .ok (some (jobj (setPair (setPair (setPair (setPair (spreadPairs node)
                    "props" (jobj (removeField (removeField
                      (spreadPairs (jsOr (optGet node "props") (jobj []))) "children") "items")))
                    "children" (jarr kn))
                    "props" (jobj (removeField (removeField (removeField (removeField
                      (spreadPairs (jsOr (optGet node "props") (jobj []))) "children") "items")
                      "fields") "buttons")))
                    "children" (jarr (hf ++ hb)))))
              | _ => .error "TypeError: buttons.map is not a function")
          | _ => .error "TypeError: fields.map is not a function"
        else
          .ok (some (jobj (setPair (setPair (spreadPairs node)
            "props" (jobj (removeField (removeField
              (spreadPairs (jsOr (optGet node "props") (jobj []))) "children") "items")))
            "children" (jarr kn))))
termination_by fuel node => (fuel, 0, 0)
decreasing_by
  exact lexNat3 (Or.inl (by omega))

/-- The null-filtering recursive normalization of a child list. -/
def normalizeKids : Nat → List JVal → Except String (List JVal)
  | _, [] => .ok []
  | fuel, k :: rest =>
      normalizeNode fuel k >>= fun ono =>
      normalizeKids fuel rest >>= fun os =>
      .ok (match ono with | some n => n :: os | none => os)
termination_by fuel l => (fuel, l.length + 1, 0)
decreasing_by
  all_goals exact lexNat3 (Or.inr ⟨rfl, Or.inl (by simp_arith)⟩)
end

/-- The render result: nothing (null), the unknown-tag diagnostic
placeholder embedding the unrecognized tag, or a mapped component with
its themed props and rendered children. -/
inductive RTree : Type where
  | nothing : RTree
  | unknownTag (tag : JVal) (children : List RTree) : RTree
  | comp (key : String) (props : List (String × JVal)) (children : List RTree) : RTree

/-- The narrow theming injection: a header without explicit color gets
theme?.text; a primary-variant button without explicit bg gets
theme?.primary plus white foreground. -/
def themedPropsOf (theme : JVal) (key : String) (n : JVal) : List (String × JVal) :=
  if key = "header" ∧ truthy (propGet (spreadPairs (optGet n "props")) "color") = false then
    setPair (spreadPairs (optGet n "props")) "color" (optGet theme "text")
  else if key = "button" ∧ truthy (propGet (spreadPairs (optGet n "props")) "bg") = false ∧
      (if optGet (optGet n "props") "variant" = jundef ∨ optGet (optGet n "props") "variant" = jnull
       then jstr "primary" else optGet (optGet n "props") "variant") = jstr "primary" then
    setPair (setPair (spreadPairs (optGet n "props")) "bg" (optGet theme "primary"))
      "color" (jstr "#FFFFFF")
  else spreadPairs (optGet n "props")

mutual
/-- ComponentRendererLite: falsy node renders nothing; the node is
normalized up front (normalization may throw); reading the key throws
on a truthy non-string type; COMPONENT_MAP[key] is a bracket lookup on
a plain object literal, so a key missing from the map's own keys but
naming an inherited Object.prototype member (constructor, toString,
proto accessor, ...) still yields a truthy value and takes the
known-component branch — the placeholder branch is reached only when
both lookups miss; unknown keys render the diagnostic placeholder and
recursively render the children (optional chaining: children absent
renders none, a truthy non-array children throws); known keys render
the dispatched handler (for inherited names a native function, outside
the modelled presentation layer) with themed props and the children
when they are a nonempty array. -/
def render (theme : JVal) : Nat → JVal → Except String RTree
  | 0, _ => .error "recursion limit exceeded"
  | fuel + 1, node =>
      if truthy node = false then .ok RTree.nothing
      else
        normalizeNode (fuel + 1) node >>= fun ono =>
        match ono with
        | none => .ok RTree.nothing
        | some n =>
            match jsOr (optGet n "type") (jstr "") with
            | jstr s =>
                if (COMPONENT_KEYS.contains (lowerStr s) ||
                    objectProtoKeys.contains (lowerStr s)) = false then
                  match optGet n "children" with
                  | jarr cs =>
                      renderList theme fuel cs >>= fun rs =>
                      .ok (RTree.unknownTag (optGet n "type") rs)
                  | jnull => .ok (RTree.unknownTag (optGet n "type") [])
                  | jundef => .ok (RTree.unknownTag (optGet n "type") [])
                  | _ => .error "TypeError: n.children.map is not a function"
                else
                  (match optGet n "children" with
                  | jarr cs =>
                      if cs.length = 0 then .ok (RTree.comp (lowerStr s)
                        (themedPropsOf theme (lowerStr s) n) [])
                      else
                        renderList theme fuel cs >>= fun rs =>
                        .ok (RTree.comp (lowerStr s) (themedPropsOf theme (lowerStr s) n) rs)
                  | _ => .ok (RTree.comp (lowerStr s) (themedPropsOf theme (lowerStr s) n) []))
            | _ => .error "TypeError: n.type.toLowerCase is not a function"
termination_by fuel node => (fuel, 0, 0)
decreasing_by
  · exact lexNat3 (Or.inl (by omega))
  · exact lexNat3 (Or.inl (by omega))

def renderList (theme : JVal) : Nat → List JVal → Except String (List RTree)
  | _, [] => .ok []
  | fuel, c :: rest =>
      render theme fuel c >>= fun r =>
      renderList theme fuel rest >>= fun rs => .ok (r :: rs)
termination_by fuel l => (fuel, l.length + 1, 0)
decreasing_by
  all_goals exact lexNat3 (Or.inr ⟨rfl, Or.inl (by simp_arith)⟩)
end

/-- C9 (amended): unknown-tag dispatch.  For every truthy node whose
up-front normalization succeeds and whose normalized type is a string
outside the component map, rendering emits the diagnostic placeholder
embedding the unrecognized tag and recursively dispatches exactly the
normalized children; the render fails only if rendering a child fails
(and, outside these hypotheses, when normalization of a malformed
descendant or a truthy non-string type throws).  The lowercased type
must miss both the component map's own keys and the inherited
Object.prototype names: bracket lookup walks the prototype chain, so a
tag like Constructor hits a truthy inherited member and is dispatched
as a known component, never reaching the placeholder. -/
theorem render_unknown_tag {theme node n : JVal} {fuel : Nat} {s : String} {cs : List JVal}
    (ht : truthy node = true)
    (hn : normalizeNode (fuel + 1) node = Except.ok (some n))
    (hty : jsOr (optGet n "type") (jstr "") = jstr s)
    (hunk : (COMPONENT_KEYS.contains (lowerStr s) ||
      objectProtoKeys.contains (lowerStr s)) = false)
    (hch : optGet n "children" = jarr cs) :
    render theme (fuel + 1) node =
      (renderList theme fuel cs >>= fun rs =>
        Except.ok (RTree.unknownTag (optGet n "type") rs)) := by
  rw [render, if_neg (by simp [ht]), hn]
  simp only [ok_bind]
  rw [hty]
  simp only [if_pos hunk]
  rw [hch]

/-- An unknown-tag node whose child is a malformed form (truthy
non-array props.fields). -/
def bogusNode : JVal :=
  jobj [("type", jstr "BogusWidget"),
        ("children", jarr [jobj [("type", jstr "form"),
          ("props", jobj [("fields", jnum 5)])]])]

/-- C9 counterexample: dispatch of an unknown-tag node CAN fail — the
whole tree is normalized before the unknown-tag path runs, so a
malformed form descendant (fields truthy but not an array) throws a
TypeError and neither the placeholder nor any child is rendered. -/
theorem render_unknown_tag_cex :
    (COMPONENT_KEYS.contains "boguswidget" || objectProtoKeys.contains "boguswidget")
      = false ∧
    render (jobj []) 5 bogusNode =
      Except.error "TypeError: fields.map is not a function" := by
  refine ⟨by decide, ?_⟩
  simp [bogusNode, render, renderList, normalizeNode, normalizeKids, kidsOf, rFieldHoist,
    themedPropsOf, COMPONENT_KEYS, jsGetOrThrow, spreadPairs, setPair, removeField,
    lookupField, propGet, optGet, jsOr, jsAndArr, truthy, isArr, typeofObject, jsStringOf,
    lowerStr, lowerChar, Bind.bind, Except.bind, Except.map]

/-- An unknown-tag node with one well-formed Text child. -/
def unknownOkNode : JVal :=
  jobj [("type", jstr "BogusWidget"), ("children", jarr [jobj [("type", jstr "Text")]])]

theorem render_unknown_tag_witness :
    render (jobj []) 5 unknownOkNode =
      (renderList (jobj []) 4 [jobj [("type", jstr "Text"), ("props", jobj []),
          ("children", jarr [])]] >>= fun rs =>
        Except.ok (RTree.unknownTag (optGet (jobj [("type", jstr "BogusWidget"),
          ("children", jarr [jobj [("type", jstr "Text"), ("props", jobj []),
            ("children", jarr [])]]), ("props", jobj [])]) "type") rs)) :=
  @render_unknown_tag (jobj []) unknownOkNode
    (jobj [("type", jstr "BogusWidget"),
      ("children", jarr [jobj [("type", jstr "Text"), ("props", jobj []),
        ("children", jarr [])]]), ("props", jobj [])])
    4 "BogusWidget"
    [jobj [("type", jstr "Text"), ("props", jobj []), ("children", jarr [])]]
    rfl
    (by simp [unknownOkNode, normalizeNode, normalizeKids, kidsOf, rFieldHoist,
      jsGetOrThrow, spreadPairs, setPair, removeField, lookupField, propGet, optGet,
      jsOr, truthy, isArr, typeofObject, jsStringOf, lowerStr, lowerChar,
      Bind.bind, Except.bind])
    rfl (by decide) rfl
